import Mathlib

/-! The sxiv colour-space resolver (`colorspace.c`)

A shallow embedding of `png_inflate` and `img_get_colorspace` together with
theorems about the probe chain, the PNG chunk walk and the file-descriptor
bookkeeping.

Conventions of the embedding

* The mapped file is a `List Byte`; `len` is its length converted to `int`.
  Every byte the C code reads goes through `rd` (or `slice` for the range
  handed to zlib); a read at an index outside the mapping is undefined
  behaviour in C and is the fault `Fault.outOfBounds i` here, as a read of
  freed memory is the fault `Fault.useAfterFree`.
* `uint32_t` arithmetic is `Nat` arithmetic followed by `u32` (reduction
  modulo `2^32`).
* `double` values are idealised as exact rationals; the only division whose
  divisor comes from the file (`1.0 / FLOAT(0)`) yields `Dbl.inf` on a zero
  divisor, as IEEE arithmetic does.
* libexif, libjpeg, lcms2, zlib and the allocator are parameters (`Libs`);
  the system calls' outcomes are a parameter (`FileEnv`) and their effect on
  the descriptor table and the mapping table is explicit state (`Sys`).
* The chunk loop takes a fuel argument: the number of iterations allowed.
-/

namespace Sxiv

/-! ## Bytes, machine integers, faults -/

/-- A byte of the mapped file (`unsigned char`). -/
abbrev Byte := Fin 256

/-- Reduction of a natural number to a `uint32_t` value. -/
def u32 (n : Nat) : Nat := n % 4294967296

/-- Ways in which a run leaves defined behaviour, or fails to finish. -/
inductive Fault where
  | outOfBounds (idx : Nat)
  | intOverflow
  | outOfFuel
  | useAfterFree
  deriving DecidableEq, Repr

/-- Computations that may fault. -/
abbrev M := Except Fault

deriving instance DecidableEq for Except

/-- Read of `data[i]`: a fault when `i` is outside the mapping. -/
def rd (data : List Byte) (i : Nat) : M Byte :=
  match data[i]? with
  | some b => Except.ok b
  | none => Except.error (Fault.outOfBounds i)

/-- The value `ntohl(*(uint32_t *)&data[p])`: four bytes at `p`, big-endian. -/
def ntohl (data : List Byte) (p : Nat) : M Nat := do
  let b0 ← rd data p
  let b1 ← rd data (p + 1)
  let b2 ← rd data (p + 2)
  let b3 ← rd data (p + 3)
  pure (b0.val * 16777216 + b1.val * 65536 + b2.val * 256 + b3.val)

/-- The test `!strncmp(&data[p], str, n)` for a literal `str` of `n` characters:
bytes are compared one at a time, stopping at the first difference or at a NUL. -/
def strncmp_is0 (data : List Byte) (p : Nat) : List Byte → M Bool
  | [] => pure true
  | c :: cs => do
    let a ← rd data p
    if a ≠ c then pure false
    else if a = 0 then pure true
    else strncmp_is0 data (p + 1) cs

/-- The range `[start, start + n)` of the mapping, handed to a library as a
pointer and a length; a fault when the range leaves the mapping. -/
def slice (data : List Byte) (start n : Nat) : M (List Byte) :=
  if start + n ≤ data.length then pure ((data.drop start).take n)
  else Except.error (Fault.outOfBounds (max start data.length))

/-! ## Constants of the source -/

/-- The literal `"\211PNG\r\n\032\n"`. -/
def png_sig : List Byte := [0x89, 0x50, 0x4E, 0x47, 0x0D, 0x0A, 0x1A, 0x0A]

/-- The literal `"IEND"`. -/
def IEND : List Byte := [73, 69, 78, 68]
/-- The literal `"IDAT"`. -/
def IDAT : List Byte := [73, 68, 65, 84]
/-- The literal `"PLTE"`. -/
def PLTE : List Byte := [80, 76, 84, 69]
/-- The literal `"iCCP"`. -/
def iCCP : List Byte := [105, 67, 67, 80]
/-- The literal `"sRGB"`. -/
def sRGB : List Byte := [115, 82, 71, 66]
/-- The literal `"cHRM"`. -/
def cHRM : List Byte := [99, 72, 82, 77]
/-- The literal `"gAMA"`. -/
def gAMA : List Byte := [103, 65, 77, 65]

/-! ## lcms2 value types -/

/-- The struct `cmsCIExyY`. -/
structure cmsCIExyY where
  x : ℚ
  y : ℚ
  Y : ℚ
  deriving DecidableEq

/-- The struct `cmsCIExyYTRIPLE`. -/
structure cmsCIExyYTRIPLE where
  Red : cmsCIExyY
  Green : cmsCIExyY
  Blue : cmsCIExyY
  deriving DecidableEq

/-- A `double` that is either an exact rational or `+inf`. -/
inductive Dbl where
  | fin (q : ℚ)
  | inf
  deriving DecidableEq

/-- The quotient `1.0 / q` for `q ≥ 0`: `+inf` when the divisor is zero. -/
def recip (q : ℚ) : Dbl := if q = 0 then Dbl.inf else Dbl.fin (1 / q)

/-! ## The libraries, as parameters -/

/-- Return codes of zlib's `inflate` as `png_inflate` distinguishes them. -/
inductive ZStatus where
  | Z_STREAM_END
  | Z_BUF_ERROR
  | Z_OTHER
  deriving DecidableEq

/-- What the libjpeg calls of lines 215-223 do: the error hook fires, or the
header is read and `read_icc_profile` yields a blob or nothing. -/
inductive JpegResult where
  | error_exit
  | header (icc : Option (List Byte))
  deriving DecidableEq

/-- The external libraries.  `P` is the type of profile handles, `TC` of tone
curve handles, `Z` of zlib decoder states; `none` is a NULL return.

* `exif_icc data` is `none` when `exif_data_new_from_data` returns NULL,
  `some none` when the 0th IFD has no `InterColorProfile` entry, and
  `some (some blob)` with the entry's bytes otherwise.
* `inflate z avail` is one call of zlib's `inflate` with `avail` bytes of output
  space: the status, the bytes produced and the next decoder state. -/
structure Libs (P TC Z : Type) where
  cmsCreate_sRGBProfile : Option P
  cmsOpenProfileFromMem : List Byte → Option P
  cmsBuildGamma : Dbl → Option TC
  cmsCreateRGBProfile : cmsCIExyY → cmsCIExyYTRIPLE → Option TC × Option TC × Option TC → Option P
  exif_icc : List Byte → Option (Option (List Byte))
  jpeg : List Byte → JpegResult
  inflateInit : List Byte → Option Z
  inflate : Z → Nat → ZStatus × List Byte × Z
  malloc : Nat → Bool
  realloc : Nat → Bool

/-! ## `png_inflate` -/

/-- The fields of `z_stream` that `png_inflate` reads or writes after
`inflateInit`; `next_out` is an offset into the output buffer. -/
structure z_stream (Z : Type) where
  next_out : Nat
  avail_out : Nat
  total_out : Nat
  state : Z

/-- One call `inflate(&strm, Z_FINISH)`: the decoder writes at most `avail_out`
bytes at `next_out` and advances `next_out`, `avail_out` and `total_out`. -/
def inflate {P TC Z : Type} (L : Libs P TC Z) (out : List Byte) (strm : z_stream Z) :
    ZStatus × List Byte × z_stream Z :=
  let r := L.inflate strm.state strm.avail_out
  let w := r.2.1.take strm.avail_out
  (r.1, out.take strm.next_out ++ w,
    ⟨strm.next_out + w.length, strm.avail_out - w.length, strm.total_out + w.length, r.2.2⟩)

/-- The `for (;;)` loop of `png_inflate` (lines 55-78); `len` is the `int`
capacity, `out` the bytes written to the buffer so far. -/
def png_inflate_loop {P TC Z : Type} (L : Libs P TC Z) :
    Nat → Nat → List Byte → z_stream Z → M (Option (List Byte))
  | 0, _, _, _ => Except.error Fault.outOfFuel
  | n + 1, len, out, strm =>
    match inflate L out strm with
    | (ZStatus.Z_STREAM_END, out1, strm1) => pure (some (out1.take strm1.total_out))
    | (ZStatus.Z_BUF_ERROR, out1, strm1) =>
      if 2147483648 ≤ len * 2 then Except.error Fault.intOverflow
      else if L.realloc (len * 2) = false then pure none
      else png_inflate_loop L n (len * 2) out1
        ⟨strm1.total_out, u32 (len * 2 + 18446744073709551616 - strm1.total_out),
          strm1.total_out, strm1.state⟩
    | (ZStatus.Z_OTHER, _, _) => pure none

/-- The function `png_inflate` (lines 37-79) on the input range it is handed.
The capacity doubles on every iteration that continues and `len *= 2`
overflows `int` at the 17th, so 18 iterations of fuel are never used up. -/
def png_inflate {P TC Z : Type} (L : Libs P TC Z) (input : List Byte) : M (Option (List Byte)) :=
  match L.inflateInit input with
  | none => pure none
  | some z =>
    if L.malloc 16384 = false then pure none
    else png_inflate_loop L 18 16384 [] ⟨0, 16384, 0, z⟩

/-! ## The PNG chunk walk (lines 129-201) -/

/-- The macro `CHUNK(str)`: `!strncmp(&data[pos+4], (str), 4)`. -/
def CHUNK (data : List Byte) (pos : Nat) (str : List Byte) : M Bool :=
  strncmp_is0 data (u32 (pos + 4)) str

/-- The macro `FLOAT(off)`: `ntohl(((uint32_t *)&data[pos+8])[(off)])/100000.0`. -/
def FLOAT (data : List Byte) (pos off : Nat) : M ℚ := do
  let v ← ntohl data (u32 (pos + 8) + 4 * off)
  pure ((v : ℚ) / 100000)

/-- The loop `for (off = 0; data[pos+8+off] != 0; off++);` of line 155.  The
first argument counts the increments left before `off++` overflows `int`. -/
def scan_name (data : List Byte) (pos : Nat) : Nat → Nat → M Nat
  | 0, _ => Except.error Fault.intOverflow
  | fuel + 1, off => do
    let b ← rd data (u32 (pos + 8 + off))
    if b ≠ 0 then scan_name data pos fuel (off + 1) else pure off

/-- The local variables of the PNG branch that live across loop iterations. -/
structure PngState (P : Type) where
  pos : Nat
  custom : Bool
  white : cmsCIExyY
  prim : cmsCIExyYTRIPLE
  gamma : Dbl
  res : Option P

/-- How one pass through the loop body ends: at a `break`, or at the bottom. -/
inductive Iter (P : Type) where
  | brk (st : PngState P)
  | cont (st : PngState P)

/-- The input handed to `png_inflate` at line 159: the pointer
`&data[pos+8+off+2]` and the length `chunklen - off - 2`. -/
def iccp_input (data : List Byte) (pos chunklen off : Nat) : M (List Byte) :=
  slice data (u32 (pos + 8 + off + 2)) (u32 (chunklen + 4294967296 - off - 2))

/-- The body of the `while` loop (lines 144-190). -/
def png_chunk {P TC Z : Type} (L : Libs P TC Z) (data : List Byte) (st : PngState P) :
    M (Iter P) := do
  let chunklen ← ntohl data st.pos
  let e1 ← CHUNK data st.pos IEND
  if e1 then pure (Iter.brk st) else
  let e2 ← CHUNK data st.pos IDAT
  if e2 then pure (Iter.brk st) else
  let e3 ← CHUNK data st.pos PLTE
  if e3 then pure (Iter.brk st) else
  let i ← CHUNK data st.pos iCCP
  if i then do
    let off ← scan_name data st.pos 2147483648 0
    let input ← iccp_input data st.pos chunklen off
    let buf ← png_inflate L input
    match buf with
    | some blob => pure (Iter.brk { st with res := L.cmsOpenProfileFromMem blob })
    | none => pure (Iter.brk st)
  else
  let s ← CHUNK data st.pos sRGB
  if s then pure (Iter.brk { st with res := L.cmsCreate_sRGBProfile }) else
  let c ← CHUNK data st.pos cHRM
  let st1 ← (if c then do
      let f0 ← FLOAT data st.pos 0
      let f1 ← FLOAT data st.pos 1
      let f2 ← FLOAT data st.pos 2
      let f3 ← FLOAT data st.pos 3
      let f4 ← FLOAT data st.pos 4
      let f5 ← FLOAT data st.pos 5
      let f6 ← FLOAT data st.pos 6
      let f7 ← FLOAT data st.pos 7
      pure { st with white := ⟨f0, f1, 1⟩, prim := ⟨⟨f2, f3, 1⟩, ⟨f4, f5, 1⟩, ⟨f6, f7, 1⟩⟩,
                     custom := true }
    else pure st)
  let g ← CHUNK data st.pos gAMA
  let st2 ← (if g then do
      let f ← FLOAT data st.pos 0
      pure { st1 with gamma := recip f, custom := true }
    else pure st1)
  pure (Iter.cont { st2 with pos := u32 (st.pos + chunklen + 12) })

/-- The loop `while (pos < len)` of lines 143-191, for at most `fuel`
iterations.  `pos` is `uint32_t` and `len` is `int`, so the comparison is
between `pos` and `len` converted to `uint32_t`. -/
def png_walk {P TC Z : Type} (L : Libs P TC Z) (data : List Byte) :
    Nat → PngState P → M (PngState P)
  | 0, st => if st.pos < u32 data.length then Except.error Fault.outOfFuel else pure st
  | fuel + 1, st =>
    if st.pos < u32 data.length then do
      let it ← png_chunk L data st
      match it with
      | Iter.brk st1 => pure st1
      | Iter.cont st1 => png_walk L data fuel st1
    else pure st

/-- The initial values of lines 130-140: D65 white, sRGB primaries (the `Y` of
each primary is zero-initialised), gamma 2.2. -/
def png_init (P : Type) : PngState P :=
  ⟨8, false, ⟨3127 / 10000, 3290 / 10000, 1⟩,
    ⟨⟨64 / 100, 33 / 100, 0⟩, ⟨30 / 100, 60 / 100, 0⟩, ⟨15 / 100, 6 / 100, 0⟩⟩,
    Dbl.fin (22 / 10), none⟩

/-- The block after the loop (lines 194-198): with `custom` set, `res` is
assigned the profile built from `white`, `prim` and one tone curve used three
times. -/
def png_finish {P TC Z : Type} (L : Libs P TC Z) (st : PngState P) : Option P :=
  if st.custom then
    let tc := L.cmsBuildGamma st.gamma
    L.cmsCreateRGBProfile st.white st.prim (tc, tc, tc)
  else st.res

/-- The PNG branch (lines 130-200): the value of `res` at `goto end`. -/
def png_probe {P TC Z : Type} (L : Libs P TC Z) (fuel : Nat) (data : List Byte) :
    M (Option P) := do
  let st ← png_walk L data fuel (png_init P)
  pure (png_finish L st)

/-! ## The EXIF and JPEG probes and the probe chain -/

/-- The call `exif_entry_unref(entry)` on an entry whose reference count is
`rc`: the count drops by one, and at zero the entry is freed. A call on a freed
entry (count 0) reads freed memory. -/
def exif_entry_unref (rc : Nat) : M Nat :=
  match rc with
  | 0 => Except.error Fault.useAfterFree
  | n + 1 => pure n

/-- Lines 116-123: the value of `res` after the libexif block. The parser is
given the mapping and `len` converted to `unsigned int`. An entry of the 0th
IFD has one reference, the one of its IFD: `exif_content_get_entry` hands it
out borrowed (libexif: it "must NOT be freed or unrefed by the caller"). Line
120 drops that reference, which frees the entry, and `exif_data_unref` of line
122 frees the IFD, which unrefs each of its entries once more. -/
def exif_probe {P TC Z : Type} (L : Libs P TC Z) (data : List Byte) : M (Option P) :=
  match L.exif_icc (data.take (u32 data.length)) with
  | none => pure none
  | some none => pure none
  | some (some blob) => do
    let res := L.cmsOpenProfileFromMem blob
    let rc ← exif_entry_unref 1
    let _ ← exif_entry_unref rc
    pure res

/-- Lines 204-229: the value of `res` after the libjpeg block. `jpeg_mem_src`
is given the mapping and `len` converted to `unsigned long`: the size of the
mapping when it fits in `int`; otherwise the truncated size, which is a
shorter input when it is not negative and a size beyond the mapping when it
is negative. -/
def jpeg_probe {P TC Z : Type} (L : Libs P TC Z) (data : List Byte) : M (Option P) :=
  if u32 data.length < 2147483648 then
    match L.jpeg (data.take (u32 data.length)) with
    | JpegResult.header (some blob) => pure (L.cmsOpenProfileFromMem blob)
    | _ => pure none
  else Except.error (Fault.outOfBounds data.length)

/-- Lines 113-229: the value of `res` on arrival at the label `end`. -/
def probes {P TC Z : Type} (L : Libs P TC Z) (fuel : Nat) (data : List Byte) : M (Option P) := do
  let res ← exif_probe L data
  match res with
  | some p => pure (some p)
  | none => do
    let png ← strncmp_is0 data 0 png_sig
    if png then png_probe L fuel data else jpeg_probe L data

/-! ## System calls and `img_get_colorspace` -/

/-- The process state the function touches: open descriptors and live mappings. -/
structure Sys where
  fds : List Nat
  maps : List Nat
  deriving DecidableEq

/-- A number not in the list. -/
def fresh (l : List Nat) : Nat := l.foldr (fun a b => max (a + 1) b) 0

/-- A successful `open`: a new descriptor enters the table. -/
def sys_open (s : Sys) : Nat × Sys := (fresh s.fds, { s with fds := fresh s.fds :: s.fds })

/-- The call `close(fd)`. -/
def sys_close (s : Sys) (fd : Nat) : Sys := { s with fds := s.fds.erase fd }

/-- A successful `mmap`: a new mapping enters the table. -/
def sys_mmap (s : Sys) : Nat × Sys := (fresh s.maps, { s with maps := fresh s.maps :: s.maps })

/-- The call `munmap(data, len)` on a mapping of `size` bytes, `len` being the
`int` that received `st_size`. When `size` fits in `int` the whole mapping is
released. Otherwise the length passed is negative, zero or shorter than the
mapping: the call fails or releases only a part, and the mapping stays in the
table. -/
def sys_munmap (s : Sys) (addr size : Nat) : Sys :=
  if size < 2147483648 then { s with maps := s.maps.erase addr } else s

/-- The outcomes of the system calls of lines 101-105: whether the `open` of
line 101 and the `open` of line 103 succeed, whether `fstat` succeeds, and the
bytes `mmap` exposes (`none` for `MAP_FAILED`). -/
structure FileEnv where
  open1 : Bool
  open2 : Bool
  fstat : Bool
  mmap : Option (List Byte)

/-- The function `img_get_colorspace` (lines 87-240): the returned handle and
the process state after the call. -/
def img_get_colorspace {P TC Z : Type} (L : Libs P TC Z) (env : FileEnv) (fuel : Nat)
    (s : Sys) : M (Option P × Sys) :=
  -- line 101: fd = open(...); the descriptor is overwritten at line 103
  let s0 := if env.open1 then (sys_open s).2 else s
  -- line 103
  if env.open2 = false then pure (L.cmsCreate_sRGBProfile, s0)
  else
    let fd := (sys_open s0).1
    let s1 := (sys_open s0).2
    if env.fstat = false then pure (L.cmsCreate_sRGBProfile, sys_close s1 fd)
    else
      match env.mmap with
      | none => pure (L.cmsCreate_sRGBProfile, sys_close s1 fd)
      | some data => do
        let addr := (sys_mmap s1).1
        let s2 := (sys_mmap s1).2
        let res ← probes L fuel data
        let s3 := sys_close (sys_munmap s2 addr data.length) fd
        match res with
        | some p => pure (some p, s3)
        | none => pure (L.cmsCreate_sRGBProfile, s3)

/-- Lines 236-237: a NULL `res` is replaced by what `cmsCreate_sRGBProfile` returns. -/
def or_sRGB {P TC Z : Type} (L : Libs P TC Z) (res : Option P) : Option P :=
  match res with
  | some p => some p
  | none => L.cmsCreate_sRGBProfile

/-- The system calls of line 103-105 succeed and expose the bytes `data`. -/
def Mapped (env : FileEnv) (data : List Byte) : Prop :=
  env.open2 = true ∧ env.fstat = true ∧ env.mmap = some data

instance (env : FileEnv) (data : List Byte) : Decidable (Mapped env data) := by
  unfold Mapped; infer_instance

/-- The process state after a call in which the mapping succeeded: the
descriptor of line 103 has been closed and `munmap` has been called on the
mapping. -/
def sys_after (env : FileEnv) (s : Sys) : Sys :=
  let s0 := if env.open1 then (sys_open s).2 else s
  let s1 := (sys_open s0).2
  match env.mmap with
  | some data =>
    sys_close (sys_munmap (sys_mmap s1).2 (sys_mmap s1).1 data.length) (sys_open s0).1
  | none => sys_close s1 (sys_open s0).1

/-! ## PNG files as chunk sequences

Vocabulary for the statements: a chunk is a 32-bit big-endian payload length,
a 4-byte type, the payload and a 4-byte CRC (which the code never reads). -/

/-- A PNG chunk. -/
structure Chunk where
  ctype : List Byte
  payload : List Byte
  crc : List Byte
  deriving DecidableEq

/-- The four bytes of a 32-bit value in network byte order. -/
def be32 (n : Nat) : List Byte :=
  [⟨n / 16777216 % 256, Nat.mod_lt _ (by decide)⟩, ⟨n / 65536 % 256, Nat.mod_lt _ (by decide)⟩,
   ⟨n / 256 % 256, Nat.mod_lt _ (by decide)⟩, ⟨n % 256, Nat.mod_lt _ (by decide)⟩]

/-- The bytes of a chunk in the file. -/
def Chunk.bytes (c : Chunk) : List Byte :=
  be32 c.payload.length ++ c.ctype ++ c.payload ++ c.crc

/-- The bytes of a chunk sequence. -/
def encode : List Chunk → List Byte
  | [] => []
  | c :: cs => c.bytes ++ encode cs

/-- The chunk types at which the walk stops without looking at the payload. -/
def critical (t : List Byte) : Bool := t = IEND || t = IDAT || t = PLTE

/-- The chunk types at which the walk stops. -/
def halting (t : List Byte) : Bool := critical t || t = iCCP || t = sRGB

/-- The chunk types the walk acts on. -/
def colour (t : List Byte) : Bool := t = iCCP || t = sRGB || t = cHRM || t = gAMA

/-- A chunk the walk can process without reading outside the chunk: type and
CRC have four bytes; an `iCCP` payload holds a NUL (the end of the profile
name) followed by at least the compression-method byte; a `cHRM` payload has
at least 32 bytes and a `gAMA` payload at least 4. -/
def Chunk.wf (c : Chunk) : Bool :=
  c.ctype.length = 4 && c.crc.length = 4 &&
  (c.ctype ≠ iCCP || c.payload.indexOf 0 + 2 ≤ c.payload.length) &&
  (c.ctype ≠ cHRM || 32 ≤ c.payload.length) &&
  (c.ctype ≠ gAMA || 4 ≤ c.payload.length)

/-- What may follow the chunks the walk processes: the end of the file, or the
complete 8-byte header of an `IEND`, `IDAT` or `PLTE` chunk and then anything. -/
def stops (tail : List Byte) : Bool :=
  tail = [] || (8 ≤ tail.length && critical ((tail.drop 4).take 4))

/-- The 32-bit big-endian value at offset `i` of a byte sequence. -/
def word32 (xs : List Byte) (i : Nat) : Nat :=
  (xs.getD i 0).val * 16777216 + (xs.getD (i + 1) 0).val * 65536 +
    (xs.getD (i + 2) 0).val * 256 + (xs.getD (i + 3) 0).val

/-- The `k`-th 32-bit payload value in units of 1/100000. -/
def chunk_float (c : Chunk) (k : Nat) : ℚ := (word32 c.payload (4 * k) : ℚ) / 100000

/-- The effect of a `cHRM` or `gAMA` chunk on the recorded colour data; any
other chunk leaves them alone. -/
def chunk_update {P : Type} (c : Chunk) (st : PngState P) : PngState P :=
  let st1 : PngState P := if c.ctype = cHRM then
      { st with white := ⟨chunk_float c 0, chunk_float c 1, 1⟩,
                prim := ⟨⟨chunk_float c 2, chunk_float c 3, 1⟩,
                         ⟨chunk_float c 4, chunk_float c 5, 1⟩,
                         ⟨chunk_float c 6, chunk_float c 7, 1⟩⟩,
                custom := true }
    else st
  if c.ctype = gAMA then { st1 with gamma := recip (chunk_float c 0), custom := true } else st1

/-- The loop state after a chunk that does not stop the walk. -/
def chunk_next {P : Type} (c : Chunk) (st : PngState P) : PngState P :=
  { chunk_update c st with pos := st.pos + c.bytes.length }

/-- Two loop states that differ at most in `pos`. -/
def same_colour {P : Type} (a b : PngState P) : Prop :=
  a.custom = b.custom ∧ a.white = b.white ∧ a.prim = b.prim ∧ a.gamma = b.gamma ∧ a.res = b.res

/-- The compressed bytes of an `iCCP` payload: what follows the name, its
terminator and the compression-method byte. -/
def iccp_stream (c : Chunk) : List Byte := c.payload.drop (c.payload.indexOf 0 + 2)

/-- One loop iteration described on the chunk at `pos` instead of on the bytes. -/
def chunk_step {P TC Z : Type} (L : Libs P TC Z) (c : Chunk) (st : PngState P) : M (Iter P) :=
  if critical c.ctype then pure (Iter.brk st)
  else if c.ctype = iCCP then do
    let buf ← png_inflate L (iccp_stream c)
    match buf with
    | some blob => pure (Iter.brk { st with res := L.cmsOpenProfileFromMem blob })
    | none => pure (Iter.brk st)
  else if c.ctype = sRGB then pure (Iter.brk { st with res := L.cmsCreate_sRGBProfile })
  else pure (Iter.cont (chunk_next c st))

/-- The walk described on a chunk sequence that is followed by the end of the
file or by a critical chunk. -/
def chunks_walk {P TC Z : Type} (L : Libs P TC Z) : List Chunk → PngState P → M (PngState P)
  | [], st => pure st
  | c :: cs, st => do
    let it ← chunk_step L c st
    match it with
    | Iter.brk st1 => pure st1
    | Iter.cont st1 => chunks_walk L cs st1

/-! ## A symbolic instance of the libraries

Handles are the terms that produced them, every library call succeeds, there
is no EXIF data, the JPEG decoder calls its error hook, and the zlib decoder
is the identity (the stream is its own decompression). -/

/-- Profile handles of the symbolic instance. -/
inductive Profile where
  | srgb
  | icc (blob : List Byte)
  | rgb (white : cmsCIExyY) (prim : cmsCIExyYTRIPLE) (curves : Option Dbl × Option Dbl × Option Dbl)
  deriving DecidableEq

/-- The symbolic instance. -/
def symLibs : Libs Profile Dbl (List Byte) where
  cmsCreate_sRGBProfile := some Profile.srgb
  cmsOpenProfileFromMem := fun blob => some (Profile.icc blob)
  cmsBuildGamma := fun g => some g
  cmsCreateRGBProfile := fun w p t => some (Profile.rgb w p t)
  exif_icc := fun _ => some none
  jpeg := fun _ => JpegResult.error_exit
  inflateInit := fun input => some input
  inflate := fun z avail =>
    if z.length ≤ avail then (ZStatus.Z_STREAM_END, z, [])
    else (ZStatus.Z_BUF_ERROR, z.take avail, z.drop avail)
  malloc := fun _ => true
  realloc := fun _ => true

/-- An environment in which every system call succeeds and the file has the
given bytes. -/
def envOf (data : List Byte) : FileEnv := ⟨true, true, true, some data⟩

/-- A process state with the three standard descriptors open. -/
def sys0 : Sys := ⟨[0, 1, 2], []⟩

/-! ## Concrete chunks and files used as examples -/

/-- Four CRC bytes (never read by the code). -/
def crc0 : List Byte := [0, 0, 0, 0]

/-- An `iCCP` chunk: name `A`, terminator, compression method 0, stream `1 2 3`. -/
def ex_iccp : Chunk := ⟨iCCP, [65, 0, 0, 1, 2, 3], crc0⟩

/-- An `sRGB` chunk with rendering intent 0. -/
def ex_srgb : Chunk := ⟨sRGB, [0], crc0⟩

/-- A `cHRM` chunk: white (0.3127, 0.3290), primaries (0.64, 0.33), (0.30, 0.60),
(0.15, 0.06). -/
def ex_chrm : Chunk :=
  ⟨cHRM, be32 31270 ++ be32 32900 ++ be32 64000 ++ be32 33000 ++ be32 30000 ++ be32 60000 ++
    be32 15000 ++ be32 6000, crc0⟩

/-- A `gAMA` chunk with value 45455. -/
def ex_gama : Chunk := ⟨gAMA, be32 45455, crc0⟩

/-- A `tEXt` chunk with a one-byte payload. -/
def ex_text : Chunk := ⟨[116, 69, 88, 116], [97], crc0⟩

/-- An `IEND` chunk with its CRC. -/
def ex_iend : List Byte := be32 0 ++ IEND ++ [174, 66, 96, 130]

/-- A PNG with the chunks `sRGB`, `iCCP`, `cHRM`, `IEND` in this order. -/
def file_srgb_iccp_chrm : List Byte := png_sig ++ encode [ex_srgb, ex_iccp, ex_chrm] ++ ex_iend

/-- A PNG with the chunks `tEXt`, `iCCP`, `sRGB`, `cHRM`, `IEND` in this order. -/
def file_iccp_first : List Byte :=
  png_sig ++ encode [ex_text, ex_iccp] ++ (encode [ex_srgb, ex_chrm] ++ ex_iend)

/-- A PNG with the chunks `cHRM`, `sRGB`, `IEND` in this order. -/
def file_chrm_srgb : List Byte := png_sig ++ encode [ex_chrm, ex_srgb] ++ ex_iend

/-- A PNG with the chunks `cHRM`, `tEXt`, `gAMA`, `IEND` in this order. -/
def file_chrm_gama : List Byte := png_sig ++ encode [ex_chrm, ex_text, ex_gama] ++ ex_iend

/-- The 16-byte file: PNG signature, length field `FF FF FF F4`, type `abcd`. -/
def file_wrap : List Byte := png_sig ++ [255, 255, 255, 244] ++ [97, 98, 99, 100]

/-- A `cHRM` chunk that declares an empty payload. -/
def ex_chrm_empty : Chunk := ⟨cHRM, [], crc0⟩

/-- The signature, an empty `cHRM` chunk, the header of `IEND`, then 20 bytes `b`. -/
def file_short_chrm (b : Byte) : List Byte :=
  png_sig ++ encode [ex_chrm_empty] ++ (be32 0 ++ IEND ++ List.replicate 20 b)

/-- The symbolic libraries with an EXIF `InterColorProfile` entry `7 7 7`. -/
def exifLibs : Libs Profile Dbl (List Byte) :=
  { symLibs with exif_icc := fun _ => some (some [7, 7, 7]) }

/-- The symbolic libraries with a zlib that rejects every stream. -/
def noInflateLibs : Libs Profile Dbl (List Byte) :=
  { symLibs with inflate := fun z _ => (ZStatus.Z_OTHER, [], z) }

/-- A PNG with the chunks `sRGB`, `cHRM`, `IEND` in this order. -/
def file_srgb_chrm : List Byte := png_sig ++ encode [ex_srgb, ex_chrm] ++ ex_iend

/-- The eight values of `ex_chrm`, by index. -/
def ex_values (k : Nat) : Nat := [31270, 32900, 64000, 33000, 30000, 60000, 15000, 6000].getD k 0

/-- A computation that returns or stops on the `int` overflow of `len *= 2`: it
reads no byte outside the mapping and it finishes. -/
def returns_or_overflows {α : Type} (r : M α) : Prop :=
  (∃ a, r = Except.ok a) ∨ r = Except.error Fault.intOverflow

/-! ## Vocabulary for the statements about partial colour data, the `iCCP` input and `png_inflate` -/

/-- A `gAMA` chunk with value 0. -/
def ex_gama_zero : Chunk := ⟨gAMA, be32 0, crc0⟩

/-- A PNG with the chunks `tEXt`, `gAMA` (45455), `IEND`. -/
def file_gama_only : List Byte := png_sig ++ encode [ex_text, ex_gama] ++ ex_iend

/-- A PNG with the chunks `cHRM`, `IEND`. -/
def file_chrm_only : List Byte := png_sig ++ encode [ex_chrm] ++ ex_iend

/-- A PNG with the chunks `tEXt`, `IEND`. -/
def file_no_colour : List Byte := png_sig ++ encode [ex_text] ++ ex_iend

/-- A PNG with the chunks `gAMA` (value 0), `IEND`. -/
def file_gama_zero : List Byte := png_sig ++ encode [ex_gama_zero] ++ ex_iend

/-- Lines 159-163 once the input is fixed: `png_inflate` is called on `input`, a
non-NULL buffer is parsed into `res`, and the loop is left. -/
def iccp_finish {P TC Z : Type} (L : Libs P TC Z) (st : PngState P) (input : List Byte) :
    M (Iter P) := do
  let buf ← png_inflate L input
  match buf with
  | some blob => pure (Iter.brk { st with res := L.cmsOpenProfileFromMem blob })
  | none => pure (Iter.brk st)

/-- The loop states at the top of the iterations that the walk executes, in
order, within `fuel` iterations. -/
def png_visited {P TC Z : Type} (L : Libs P TC Z) (data : List Byte) :
    Nat → PngState P → List (PngState P)
  | 0, _ => []
  | fuel + 1, st =>
    if st.pos < u32 data.length then
      st :: (match png_chunk L data st with
        | Except.ok (Iter.cont st1) => png_visited L data fuel st1
        | _ => [])
    else []

/-- The `gAMA` value at the position of a loop state: the word `FLOAT(0)` reads
there when the type field reads `gAMA`. -/
def gama_at {P : Type} (data : List Byte) (st : PngState P) : Option Nat :=
  match CHUNK data st.pos gAMA, ntohl data (u32 (st.pos + 8) + 4 * 0) with
  | Except.ok true, Except.ok g => some g
  | _, _ => none

/-- The `gAMA` values the walk reads from the file, in the order it reads them. -/
def gama_values {P TC Z : Type} (L : Libs P TC Z) (data : List Byte) (fuel : Nat) : List Nat :=
  (png_visited L data fuel (png_init P)).filterMap (gama_at data)

/-- The gamma the walk ends with, told from the `gAMA` values it read: the
default 2.2 when it read none, and `1.0 / (g / 100000.0)` for the last value
`g` it read. -/
def gamma_of (values : List Nat) : Dbl :=
  match values.getLast? with
  | none => Dbl.fin (22 / 10)
  | some g => recip ((g : ℚ) / 100000)

/-- The variables of `png_inflate` at the top of a loop iteration, that is
before a decoder call: the capacity `len`, the bytes in the buffer `out`, and
the stream. -/
structure loop_vars (Z : Type) where
  len : Nat
  out : List Byte
  strm : z_stream Z

/-- The variables before the first decoder call (lines 47-53). -/
def loop_init {Z : Type} (z : Z) : loop_vars Z := ⟨16384, [], ⟨0, 16384, 0, z⟩⟩

/-- The bytes the decoder writes in the call made from the given variables. -/
def loop_written {P TC Z : Type} (L : Libs P TC Z) (s : loop_vars Z) : List Byte :=
  (L.inflate s.strm.state s.strm.avail_out).2.1.take s.strm.avail_out

/-- The status the decoder returns in the call made from the given variables. -/
def loop_status {P TC Z : Type} (L : Libs P TC Z) (s : loop_vars Z) : ZStatus :=
  (L.inflate s.strm.state s.strm.avail_out).1

/-- The variables before the next decoder call, when there is one: the case
`Z_BUF_ERROR` of lines 62-70 with `len *= 2` inside `int` and `realloc`
succeeding. -/
def loop_next {P TC Z : Type} (L : Libs P TC Z) (s : loop_vars Z) : Option (loop_vars Z) :=
  match inflate L s.out s.strm with
  | (ZStatus.Z_BUF_ERROR, out1, strm1) =>
    if 2147483648 ≤ s.len * 2 then none
    else if L.realloc (s.len * 2) = false then none
    else some ⟨s.len * 2, out1,
      ⟨strm1.total_out, u32 (s.len * 2 + 18446744073709551616 - strm1.total_out),
        strm1.total_out, strm1.state⟩⟩
  | _ => none

/-- The variables before the decoder call that follows `k` buffer-exhaustion
statuses, when the run gets there. -/
def loop_state {P TC Z : Type} (L : Libs P TC Z) (z : Z) : Nat → Option (loop_vars Z)
  | 0 => some (loop_init z)
  | k + 1 => (loop_state L z k).bind (loop_next L)

/-- The relation between the stream and the buffer that holds before a decoder
call: the write offset is the total output count, offset plus available space
is the capacity, the capacity is `16384 * 2^k`, and the buffer holds exactly
the bytes written so far. -/
def loop_inv {Z : Type} (k : Nat) (s : loop_vars Z) : Prop :=
  s.strm.next_out = s.strm.total_out ∧ s.strm.next_out + s.strm.avail_out = s.len ∧
  s.len = 16384 * 2 ^ k ∧ s.out.length = s.strm.total_out


example : png_probe symLibs 5 (png_sig ++ [0]) = .error (.outOfBounds 9) := by decide

/-! ## Reading from a mapping with a known suffix -/

theorem u32_of_lt {n : Nat} (h : n < 4294967296) : u32 n = n := Nat.mod_eq_of_lt h

/-- A read at offset `k` of a known stretch `xs` of the mapping yields `xs[k]`. -/
theorem rd_append {data xs rest : List Byte} {p : Nat} (hd : data.drop p = xs ++ rest)
    (k : Nat) (hk : k < xs.length) : rd data (p + k) = Except.ok (xs.getD k 0) := by
  have h1 : data[p + k]? = (data.drop p)[k]? := by simp
  have h2 : (xs ++ rest)[k]? = some (xs.getD k 0) := by
    rw [List.getElem?_append_left hk, List.getD_eq_getElem?_getD]
    simp [List.getElem?_eq_getElem hk]
  simp [rd, h1, hd, h2]

theorem drop_add {data xs rest : List Byte} {p : Nat} (hd : data.drop p = xs ++ rest) :
    data.drop (p + xs.length) = rest := by
  rw [← List.drop_drop, hd]; simp

/-- A 32-bit load inside a known stretch of the mapping yields its big-endian value. -/
theorem ntohl_append {data xs rest : List Byte} {p : Nat} (hd : data.drop p = xs ++ rest)
    (i : Nat) (hi : i + 4 ≤ xs.length) : ntohl data (p + i) = Except.ok (word32 xs i) := by
  have h0 := rd_append hd i (by omega)
  have h1 := rd_append hd (i + 1) (by omega)
  have h2 := rd_append hd (i + 2) (by omega)
  have h3 := rd_append hd (i + 3) (by omega)
  simp only [← Nat.add_assoc] at h1 h2 h3
  simp [ntohl, h0, h1, h2, h3, word32, bind, Except.bind, pure, Except.pure]

theorem word32_be32 (n : Nat) (h : n < 4294967296) (rest : List Byte) :
    word32 (be32 n ++ rest) 0 = n := by
  simp [word32, be32]
  omega

theorem rd_cons {data rest : List Byte} {a : Byte} {p : Nat} (hd : data.drop p = a :: rest) :
    rd data p = Except.ok a := by
  have hd1 : data.drop p = [a] ++ rest := by simpa using hd
  have h0 := rd_append hd1 0 (by simp)
  simpa using h0

theorem drop_succ_of_cons {data rest : List Byte} {a : Byte} {p : Nat}
    (hd : data.drop p = a :: rest) : data.drop (p + 1) = rest := by
  have hd1 : data.drop p = [a] ++ rest := by simpa using hd
  have := drop_add hd1
  simpa using this

/-- On bytes known to be `t`, the comparison with a literal `s` without NUL of the
same length decides `t = s` and reads nothing else. -/
theorem strncmp_append (data : List Byte) (s : List Byte) (hs : ∀ c ∈ s, c ≠ 0) :
    ∀ (t rest : List Byte) (p : Nat), data.drop p = t ++ rest → t.length = s.length →
      strncmp_is0 data p s = Except.ok (decide (t = s)) := by
  induction s with
  | nil =>
    intro t rest p _ ht
    have : t = [] := List.length_eq_zero.mp ht
    simp [strncmp_is0, this, pure, Except.pure]
  | cons c cs ih =>
    intro t rest p hd ht
    cases t with
    | nil => simp at ht
    | cons a t =>
      have hd0 : data.drop p = a :: (t ++ rest) := by simpa using hd
      have h0 := rd_cons hd0
      have hd1 : data.drop (p + 1) = t ++ rest := drop_succ_of_cons hd0
      simp only [strncmp_is0, h0, bind, Except.bind]
      by_cases hac : a = c
      · subst hac
        have ha0 : a ≠ 0 := hs a (by simp)
        have := ih (fun x hx => hs x (by simp [hx])) t rest (p + 1) hd1 (by simpa using ht)
        simp [ha0, this]
      · simp [hac, pure, Except.pure]
theorem length_ge_of_drop {data xs rest : List Byte} {p : Nat} (hd : data.drop p = xs ++ rest)
    (hx : 0 < xs.length) : p + xs.length ≤ data.length := by
  have h := congrArg List.length hd
  rw [List.length_drop, List.length_append] at h
  omega

/-- The name scan stops at the first NUL of a known stretch and reads nothing after it. -/
theorem scan_append (data : List Byte) (pos : Nat) :
    ∀ (xs rest : List Byte) (fuel off : Nat), data.drop (pos + 8 + off) = xs ++ rest →
      xs.indexOf 0 < xs.length → xs.indexOf 0 < fuel →
      pos + 8 + off + xs.length < 4294967296 →
      scan_name data pos fuel off = Except.ok (off + xs.indexOf 0) := by
  intro xs
  induction xs with
  | nil => intro rest fuel off _ h; simp at h
  | cons a xs ih =>
    intro rest fuel off hd hidx hfuel hlt
    cases fuel with
    | zero => omega
    | succ f =>
      have hr : rd data (u32 (pos + 8 + off)) = Except.ok a := by
        rw [u32_of_lt (by simp at hlt; omega)]
        exact rd_cons (by simpa using hd)
      by_cases ha : a = 0
      · subst ha
        simp [scan_name, hr, bind, Except.bind, pure, Except.pure]
      · have hne : List.indexOf 0 (a :: xs) = (List.indexOf 0 xs) + 1 :=
          List.indexOf_cons_ne xs ha
        rw [hne] at hidx hfuel
        have hd0 : data.drop (pos + 8 + off) = a :: (xs ++ rest) := by simpa using hd
        have hd1 : data.drop (pos + 8 + (off + 1)) = xs ++ rest := by
          have := drop_succ_of_cons hd0
          simpa [Nat.add_assoc] using this
        have := ih rest f (off + 1) hd1 (by simpa using hidx) (by omega)
          (by simp at hlt; omega)
        simp only [scan_name, hr, bind, Except.bind, hne]
        simp [ha, this]
        omega

/-- The range `[p + i, p + xs.length)` of a known stretch `xs` is `xs.drop i`. -/
theorem slice_append {data xs rest : List Byte} {p : Nat} (hd : data.drop p = xs ++ rest)
    (hlen : p + xs.length ≤ data.length) (i : Nat) (hi : i ≤ xs.length) :
    slice data (p + i) (xs.length - i) = Except.ok (xs.drop i) := by
  have h1 : data.drop (p + i) = xs.drop i ++ rest := by
    rw [← List.drop_drop, hd, List.drop_append_of_le_length hi]
  have h2 : (xs.drop i ++ rest).take (xs.length - i) = xs.drop i := by
    rw [List.take_append_of_le_length (by simp)]
    exact List.take_of_length_le (by simp)
  have hle : p + i + (xs.length - i) ≤ data.length := by omega
  simp [slice, hle, h1, h2, pure, Except.pure]
theorem wf_iff (c : Chunk) : c.wf = true ↔
    c.ctype.length = 4 ∧ c.crc.length = 4 ∧
    (c.ctype = iCCP → c.payload.indexOf 0 + 2 ≤ c.payload.length) ∧
    (c.ctype = cHRM → 32 ≤ c.payload.length) ∧ (c.ctype = gAMA → 4 ≤ c.payload.length) := by
  simp only [Chunk.wf, Bool.and_eq_true, Bool.or_eq_true, decide_eq_true_eq, and_assoc]
  constructor
  · rintro ⟨h1, h2, h3, h4, h5⟩
    refine ⟨h1, h2, fun h => ?_, fun h => ?_, fun h => ?_⟩
    · rcases h3 with h3 | h3
      · simp [h] at h3
      · exact h3
    · rcases h4 with h4 | h4
      · simp [h] at h4
      · exact h4
    · rcases h5 with h5 | h5
      · simp [h] at h5
      · exact h5
  · rintro ⟨h1, h2, h3, h4, h5⟩
    refine ⟨h1, h2, ?_, ?_, ?_⟩
    · by_cases h : c.ctype = iCCP
      · exact Or.inr (h3 h)
      · exact Or.inl (by simp [h])
    · by_cases h : c.ctype = cHRM
      · exact Or.inr (h4 h)
      · exact Or.inl (by simp [h])
    · by_cases h : c.ctype = gAMA
      · exact Or.inr (h5 h)
      · exact Or.inl (by simp [h])

theorem bytes_length (c : Chunk) (hwf : c.wf = true) :
    c.bytes.length = c.payload.length + 12 := by
  obtain ⟨h1, h2, _⟩ := (wf_iff c).mp hwf
  simp [Chunk.bytes, be32, h1, h2]; omega

theorem chunklen_eq {P : Type} {data rest : List Byte} {c : Chunk} {st : PngState P}
    (hd : data.drop st.pos = c.bytes ++ rest)
    (hlen : data.length < 2147483648) (hwf : c.wf = true) :
    ntohl data st.pos = Except.ok c.payload.length := by
  have hb := bytes_length c hwf
  have hle := length_ge_of_drop hd (by omega)
  have h := ntohl_append hd 0 (by omega)
  rw [Nat.add_zero] at h
  rw [h]
  have : c.bytes = be32 c.payload.length ++ (c.ctype ++ c.payload ++ c.crc) := by
    simp [Chunk.bytes]
  rw [this, word32_be32 _ (by omega)]

theorem drop4 {P : Type} {data rest : List Byte} {c : Chunk} {st : PngState P}
    (hd : data.drop st.pos = c.bytes ++ rest) :
    data.drop (st.pos + 4) = c.ctype ++ (c.payload ++ c.crc ++ rest) := by
  have h : data.drop st.pos = be32 c.payload.length ++ (c.ctype ++ (c.payload ++ c.crc ++ rest)) := by
    rw [hd]; simp [Chunk.bytes]
  have := drop_add h
  simpa [be32] using this

theorem drop8 {P : Type} {data rest : List Byte} {c : Chunk} {st : PngState P}
    (hd : data.drop st.pos = c.bytes ++ rest) (hwf : c.wf = true) :
    data.drop (st.pos + 8) = c.payload ++ (c.crc ++ rest) := by
  obtain ⟨h1, _⟩ := (wf_iff c).mp hwf
  have := drop_add (drop4 hd)
  rw [h1] at this
  simpa [Nat.add_assoc] using this

theorem CHUNK_eq {P : Type} {data rest : List Byte} {c : Chunk} {st : PngState P}
    (hd : data.drop st.pos = c.bytes ++ rest)
    (hlen : data.length < 2147483648) (hwf : c.wf = true) (s : List Byte)
    (hs : ∀ x ∈ s, x ≠ 0) (hsl : s.length = 4) :
    CHUNK data st.pos s = Except.ok (decide (c.ctype = s)) := by
  obtain ⟨h1, _⟩ := (wf_iff c).mp hwf
  have hb := bytes_length c hwf
  have hle := length_ge_of_drop hd (by omega)
  rw [CHUNK, u32_of_lt (by omega)]
  exact strncmp_append data s hs _ _ _ (drop4 hd) (by omega)

theorem FLOAT_eq {P : Type} {data rest : List Byte} {c : Chunk} {st : PngState P}
    (hd : data.drop st.pos = c.bytes ++ rest)
    (hlen : data.length < 2147483648) (hwf : c.wf = true) (k : Nat)
    (hk : 4 * k + 4 ≤ c.payload.length) :
    FLOAT data st.pos k = Except.ok (chunk_float c k) := by
  have hb := bytes_length c hwf
  have hle := length_ge_of_drop hd (by omega)
  rw [FLOAT, u32_of_lt (by omega), ntohl_append (drop8 hd hwf) (4 * k) hk]
  rfl

theorem iccp_eq {P : Type} {data rest : List Byte} {c : Chunk} {st : PngState P}
    (hd : data.drop st.pos = c.bytes ++ rest)
    (hlen : data.length < 2147483648) (hwf : c.wf = true) (hi : c.ctype = iCCP) :
    scan_name data st.pos 2147483648 0 = Except.ok (c.payload.indexOf 0) ∧
    iccp_input data st.pos c.payload.length (c.payload.indexOf 0) = Except.ok (iccp_stream c) := by
  obtain ⟨_, h2, h3, _⟩ := (wf_iff c).mp hwf
  have h3 := h3 hi
  have hb := bytes_length c hwf
  have hle := length_ge_of_drop hd (by omega)
  constructor
  · have := scan_append data st.pos c.payload (c.crc ++ rest) 2147483648 0
      (by simpa using drop8 hd hwf) (by omega) (by omega) (by omega)
    simpa using this
  · have h := slice_append (drop8 hd hwf) (by omega) (c.payload.indexOf 0 + 2) h3
    rw [iccp_input, u32_of_lt (by omega)]
    have e : u32 (c.payload.length + 4294967296 - c.payload.indexOf 0 - 2)
        = c.payload.length - (c.payload.indexOf 0 + 2) := by
      unfold u32; omega
    rw [e]
    have e2 : st.pos + 8 + List.indexOf 0 c.payload + 2 = st.pos + 8 + (List.indexOf 0 c.payload + 2) := by
      omega
    rw [e2, h]; rfl

theorem lit_ne (s : List Byte)
    (h : s = IEND ∨ s = IDAT ∨ s = PLTE ∨ s = iCCP ∨ s = sRGB ∨ s = cHRM ∨ s = gAMA) :
    (∀ x ∈ s, x ≠ 0) ∧ s.length = 4 := by
  rcases h with h | h | h | h | h | h | h <;> subst h <;>
    simp [IEND, IDAT, PLTE, iCCP, sRGB, cHRM, gAMA]

/-- On a whole chunk at `pos`, the loop body of the code does what `chunk_step` says. -/
theorem png_chunk_eq {P TC Z : Type} (L : Libs P TC Z) {data rest : List Byte} {c : Chunk}
    {st : PngState P} (hd : data.drop st.pos = c.bytes ++ rest)
    (hlen : data.length < 2147483648) (hwf : c.wf = true) :
    png_chunk L data st = chunk_step L c st := by
  have hb := bytes_length c hwf
  have hle := length_ge_of_drop hd (by omega)
  have hC : ∀ s, (s = IEND ∨ s = IDAT ∨ s = PLTE ∨ s = iCCP ∨ s = sRGB ∨ s = cHRM ∨ s = gAMA) →
      CHUNK data st.pos s = Except.ok (decide (c.ctype = s)) := fun s hs =>
    CHUNK_eq hd hlen hwf s (lit_ne s hs).1 (lit_ne s hs).2
  obtain ⟨_, _, _, w4, w5⟩ := (wf_iff c).mp hwf
  have hpos : u32 (st.pos + c.payload.length + 12) = st.pos + c.bytes.length := by
    rw [u32_of_lt (by omega)]; omega
  unfold png_chunk chunk_step
  simp only [chunklen_eq hd hlen hwf, hC IEND (by simp), hC IDAT (by simp), hC PLTE (by simp),
    hC iCCP (by simp), hC sRGB (by simp), hC cHRM (by simp), hC gAMA (by simp),
    bind, Except.bind, critical, hpos]
  by_cases h1 : c.ctype = IEND
  · simp [h1]
  by_cases h2 : c.ctype = IDAT
  · simp [h2]
  by_cases h3 : c.ctype = PLTE
  · simp [h3]
  by_cases h4 : c.ctype = iCCP
  · obtain ⟨e1, e2⟩ := iccp_eq hd hlen hwf h4
    simp only [h1, h2, h3, h4, e1, e2]
    simp
    rfl
  by_cases h5 : c.ctype = sRGB
  · simp [eq_false h1, eq_false h2, eq_false h3, eq_false h4, eq_true h5]
  by_cases h6 : c.ctype = cHRM
  · have h7 : c.ctype ≠ gAMA := by rw [h6]; decide
    have hp := w4 h6
    simp [eq_false h1, eq_false h2, eq_false h3, eq_false h4, eq_false h5, eq_true h6,
      eq_false h7, chunk_next, chunk_update, FLOAT_eq hd hlen hwf 0 (by omega),
      FLOAT_eq hd hlen hwf 1 (by omega),
      FLOAT_eq hd hlen hwf 2 (by omega), FLOAT_eq hd hlen hwf 3 (by omega),
      FLOAT_eq hd hlen hwf 4 (by omega), FLOAT_eq hd hlen hwf 5 (by omega),
      FLOAT_eq hd hlen hwf 6 (by omega), FLOAT_eq hd hlen hwf 7 (by omega), pure, Except.pure]
  by_cases h7 : c.ctype = gAMA
  · have hp := w5 h7
    simp [eq_false h1, eq_false h2, eq_false h3, eq_false h4, eq_false h5, eq_false h6,
      eq_true h7, chunk_next, chunk_update, FLOAT_eq hd hlen hwf 0 (by omega), pure, Except.pure]
  simp [eq_false h1, eq_false h2, eq_false h3, eq_false h4, eq_false h5, eq_false h6,
    eq_false h7, chunk_next, chunk_update, pure, Except.pure]
/-- On the complete header of a critical chunk at `pos`, the loop body breaks. -/
theorem png_chunk_critical {P TC Z : Type} (L : Libs P TC Z) {data tail : List Byte}
    {st : PngState P} (hd : data.drop st.pos = tail) (h8 : 8 ≤ tail.length)
    (hc : critical ((tail.drop 4).take 4) = true) (hlen : data.length < 2147483648) :
    png_chunk L data st = Except.ok (Iter.brk st) := by
  have hd0 : data.drop st.pos = tail ++ [] := by simpa using hd
  have hle := length_ge_of_drop hd0 (by omega)
  have hn := ntohl_append hd0 0 (by omega)
  rw [Nat.add_zero] at hn
  have hd4 : data.drop (st.pos + 4) = (tail.drop 4).take 4 ++ tail.drop 8 := by
    rw [← List.drop_drop, hd]
    have : tail.drop 8 = (tail.drop 4).drop 4 := by rw [List.drop_drop]
    rw [this, List.take_append_drop]
  have hC : ∀ s, (s = IEND ∨ s = IDAT ∨ s = PLTE ∨ s = iCCP ∨ s = sRGB ∨ s = cHRM ∨ s = gAMA) →
      CHUNK data st.pos s = Except.ok (decide ((tail.drop 4).take 4 = s)) := fun s hs => by
    rw [CHUNK, u32_of_lt (by omega)]
    exact strncmp_append data s (lit_ne s hs).1 _ _ _ hd4 (by simp [(lit_ne s hs).2]; omega)
  unfold png_chunk
  simp only [hn, hC IEND (by simp), hC IDAT (by simp), hC PLTE (by simp), bind, Except.bind]
  simp only [critical, Bool.or_eq_true, decide_eq_true_eq] at hc
  by_cases h1 : (tail.drop 4).take 4 = IEND
  · simp [eq_true h1, pure, Except.pure]
  by_cases h2 : (tail.drop 4).take 4 = IDAT
  · simp [eq_false h1, eq_true h2, pure, Except.pure]
  have h3 : (tail.drop 4).take 4 = PLTE := by tauto
  simp [eq_false h1, eq_false h2, eq_true h3, pure, Except.pure]

theorem chunk_step_cont {P TC Z : Type} (L : Libs P TC Z) (c : Chunk) (st st1 : PngState P)
    (h : chunk_step L c st = Except.ok (Iter.cont st1)) :
    st1 = chunk_next c st ∧ halting c.ctype = false := by
  unfold chunk_step at h
  split at h
  · simp [pure, Except.pure] at h
  split at h
  · cases hp : png_inflate L (iccp_stream c) with
    | error e => simp [hp, bind, Except.bind] at h
    | ok b => cases b <;> simp [hp, bind, Except.bind, pure, Except.pure] at h
  split at h
  · simp [pure, Except.pure] at h
  · simp only [pure, Except.pure, Except.ok.injEq, Iter.cont.injEq] at h
    refine ⟨h.symm, ?_⟩
    simp_all [halting]

/-- On whole chunks followed by the end of the file or a critical header, or
holding a chunk that stops the walk, the loop of the code is the walk over the chunks. -/
theorem png_walk_eq {P TC Z : Type} (L : Libs P TC Z) (data : List Byte)
    (hlen : data.length < 2147483648) :
    ∀ (cs : List Chunk) (tail : List Byte) (fuel : Nat) (st : PngState P),
      data.drop st.pos = encode cs ++ tail → (∀ c ∈ cs, c.wf = true) →
      (stops tail = true ∨ ∃ c ∈ cs, halting c.ctype = true) →
      cs.length < fuel → png_walk L data fuel st = chunks_walk L cs st := by
  have hu : u32 data.length = data.length := u32_of_lt (by omega)
  intro cs
  induction cs with
  | nil =>
    intro tail fuel st hd _ hs hf
    cases fuel with
    | zero => omega
    | succ f =>
      simp only [encode, List.nil_append] at hd
      simp only [stops, Bool.or_eq_true, decide_eq_true_eq, Bool.and_eq_true, List.not_mem_nil,
        false_and, exists_false, or_false] at hs
      rcases hs with hs | ⟨h8, hc⟩
      · subst hs
        have : data.length ≤ st.pos := List.drop_eq_nil_iff.mp hd
        simp [png_walk, chunks_walk, hu, Nat.not_lt.mpr this]
      · have hd0 : data.drop st.pos = tail ++ [] := by simpa using hd
        have hle := length_ge_of_drop hd0 (by omega)
        have hlt : st.pos < data.length := by omega
        simp [png_walk, chunks_walk, hu, hlt, png_chunk_critical L hd h8 hc hlen, bind,
          Except.bind]
  | cons c cs ih =>
    intro tail fuel st hd hwf hs hf
    cases fuel with
    | zero => simp at hf
    | succ f =>
      have hc := hwf c (by simp)
      have hd1 : data.drop st.pos = c.bytes ++ (encode cs ++ tail) := by
        simpa [encode, List.append_assoc] using hd
      have hb := bytes_length c hc
      have hle := length_ge_of_drop hd1 (by omega)
      have hlt : st.pos < data.length := by omega
      simp only [png_walk, chunks_walk, hu, hlt, if_true, png_chunk_eq L hd1 hlen hc]
      cases hstep : chunk_step L c st with
      | error e => simp [bind, Except.bind]
      | ok it =>
        cases it with
        | brk st1 => simp [bind, Except.bind]
        | cont st1 =>
          obtain ⟨hp, hh⟩ := chunk_step_cont L c st st1 hstep
          have hd2 : data.drop st1.pos = encode cs ++ tail := by
            rw [hp]; exact drop_add hd1
          have hs2 : stops tail = true ∨ ∃ x ∈ cs, halting x.ctype = true := by
            rcases hs with hs | ⟨x, hx, hxh⟩
            · exact Or.inl hs
            · rcases List.mem_cons.mp hx with rfl | hx
              · rw [hh] at hxh; cases hxh
              · exact Or.inr ⟨x, hx, hxh⟩
          simp only [bind, Except.bind]
          exact ih tail f st1 hd2 (fun x hx => hwf x (by simp [hx])) hs2 (by simpa using hf)
/-! ## The probe chain on a mapped file -/

/-- With the mapping in place, the function returns the profile of the probes or sRGB and
leaves the state `sys_after`. -/
theorem img_mapped {P TC Z : Type} (L : Libs P TC Z) (env : FileEnv) (fuel : Nat) (s : Sys)
    (data : List Byte) (hm : Mapped env data) :
    img_get_colorspace L env fuel s =
      (probes L fuel data).map (fun res => (or_sRGB L res, sys_after env s)) := by
  obtain ⟨h1, h2, h3⟩ := hm
  simp only [img_get_colorspace, h1, h2, h3, sys_after]
  cases hp : probes L fuel data with
  | error e => simp [bind, Except.bind, Except.map]
  | ok res => cases res <;> simp [bind, Except.bind, Except.map, or_sRGB, pure, Except.pure]

theorem sig_true {data : List Byte} (hsig : data.take 8 = png_sig) :
    strncmp_is0 data 0 png_sig = Except.ok true := by
  have hd : data.drop 0 = png_sig ++ data.drop 8 := by
    rw [← hsig]; simp
  have := strncmp_append data png_sig (by simp [png_sig]) png_sig (data.drop 8) 0 hd rfl
  simpa using this

theorem probes_png {P TC Z : Type} (L : Libs P TC Z) (fuel : Nat) {data : List Byte}
    (hsig : data.take 8 = png_sig) (hexif : exif_probe L data = Except.ok none) :
    probes L fuel data = png_probe L fuel data := by
  simp [probes, hexif, sig_true hsig, bind, Except.bind]

theorem take_sig (body : List Byte) : (png_sig ++ body).take 8 = png_sig := by
  simp [png_sig]

/-- The PNG branch on a file of whole chunks. -/
theorem png_probe_framed {P TC Z : Type} (L : Libs P TC Z) (fuel : Nat) (cs : List Chunk)
    (tail : List Byte) (hlen : (png_sig ++ encode cs ++ tail).length < 2147483648)
    (hwf : ∀ c ∈ cs, c.wf = true)
    (hs : stops tail = true ∨ ∃ c ∈ cs, halting c.ctype = true) (hf : cs.length < fuel) :
    png_probe L fuel (png_sig ++ encode cs ++ tail) =
      (chunks_walk L cs (png_init P)).map (png_finish L) := by
  have hd : (png_sig ++ encode cs ++ tail).drop (png_init P).pos = encode cs ++ tail := by
    simp [png_init, png_sig]
  rw [png_probe, png_walk_eq L _ hlen cs tail fuel (png_init P) hd hwf hs hf]
  cases chunks_walk L cs (png_init P) <;> simp [bind, Except.bind, Except.map, pure, Except.pure]

/-- The whole function on a PNG file of whole chunks without EXIF profile. -/
theorem img_framed {P TC Z : Type} (L : Libs P TC Z) (env : FileEnv) (fuel : Nat) (s : Sys)
    (cs : List Chunk) (tail : List Byte)
    (hm : Mapped env (png_sig ++ encode cs ++ tail))
    (hexif : exif_probe L (png_sig ++ encode cs ++ tail) = Except.ok none)
    (hlen : (png_sig ++ encode cs ++ tail).length < 2147483648)
    (hwf : ∀ c ∈ cs, c.wf = true)
    (hs : stops tail = true ∨ ∃ c ∈ cs, halting c.ctype = true) (hf : cs.length < fuel) :
    img_get_colorspace L env fuel s =
      (chunks_walk L cs (png_init P)).map
        (fun st => (or_sRGB L (png_finish L st), sys_after env s)) := by
  have hsig : (png_sig ++ encode cs ++ tail).take 8 = png_sig := by
    rw [List.append_assoc]; exact take_sig _
  rw [img_mapped L env fuel s _ hm, probes_png L fuel hsig hexif,
    png_probe_framed L fuel cs tail hlen hwf hs hf]
  cases chunks_walk L cs (png_init P) <;> simp [Except.map]

/-! ## The JPEG decoder is not consulted by the PNG branch -/

theorem png_inflate_loop_jpeg {P TC Z : Type} (L : Libs P TC Z) (j : List Byte → JpegResult) :
    ∀ (n len : Nat) (out : List Byte) (strm : z_stream Z),
      png_inflate_loop { L with jpeg := j } n len out strm = png_inflate_loop L n len out strm := by
  intro n
  induction n with
  | zero => intro len out strm; rfl
  | succ n ih =>
    intro len out strm
    have hi : inflate { L with jpeg := j } out strm = inflate L out strm := rfl
    simp only [png_inflate_loop, hi]
    split
    · rfl
    · split
      · rfl
      · split
        · rfl
        · exact ih _ _ _
    · rfl

theorem png_inflate_jpeg {P TC Z : Type} (L : Libs P TC Z) (j : List Byte → JpegResult)
    (input : List Byte) : png_inflate { L with jpeg := j } input = png_inflate L input := by
  simp only [png_inflate]
  split
  · rfl
  · split
    · rfl
    · exact png_inflate_loop_jpeg L j _ _ _ _

theorem png_chunk_jpeg {P TC Z : Type} (L : Libs P TC Z) (j : List Byte → JpegResult)
    (data : List Byte) (st : PngState P) :
    png_chunk { L with jpeg := j } data st = png_chunk L data st := by
  simp only [png_chunk, png_inflate_jpeg]

theorem png_walk_jpeg {P TC Z : Type} (L : Libs P TC Z) (j : List Byte → JpegResult)
    (data : List Byte) : ∀ (fuel : Nat) (st : PngState P),
      png_walk { L with jpeg := j } data fuel st = png_walk L data fuel st := by
  intro fuel
  induction fuel with
  | zero => intro st; rfl
  | succ f ih =>
    intro st
    simp only [png_walk, png_chunk_jpeg, ih]

theorem png_probe_jpeg {P TC Z : Type} (L : Libs P TC Z) (j : List Byte → JpegResult)
    (fuel : Nat) (data : List Byte) :
    png_probe { L with jpeg := j } fuel data = png_probe L fuel data := by
  simp only [png_probe, png_walk_jpeg]
  rfl
/-! ## Walking over chunks that do not stop the walk -/

theorem chunk_step_plain {P TC Z : Type} (L : Libs P TC Z) (c : Chunk) (st : PngState P)
    (h : halting c.ctype = false) :
    chunk_step L c st = Except.ok (Iter.cont (chunk_next c st)) := by
  simp only [halting, Bool.or_eq_false_iff, decide_eq_false_iff_not] at h
  obtain ⟨⟨h1, h2⟩, h3⟩ := h
  simp [chunk_step, h1, h2, h3, pure, Except.pure]

theorem chunks_walk_plain {P TC Z : Type} (L : Libs P TC Z) :
    ∀ (pre cs : List Chunk) (st : PngState P), (∀ c ∈ pre, halting c.ctype = false) →
      chunks_walk L (pre ++ cs) st =
        chunks_walk L cs (pre.foldl (fun s c => chunk_next c s) st) := by
  intro pre
  induction pre with
  | nil => intro cs st _; rfl
  | cons c pre ih =>
    intro cs st h
    have hc := h c (by simp)
    simp only [List.cons_append, chunks_walk, chunk_step_plain L c st hc, bind, Except.bind,
      List.foldl_cons]
    exact ih cs _ (fun x hx => h x (by simp [hx]))

theorem chunk_update_plain {P : Type} (c : Chunk) (st : PngState P)
    (h : colour c.ctype = false) : chunk_update c st = st := by
  simp only [colour, Bool.or_eq_false_iff, decide_eq_false_iff_not] at h
  simp [chunk_update, h.1.2, h.2]

theorem same_colour_refl {P : Type} (a : PngState P) : same_colour a a :=
  ⟨rfl, rfl, rfl, rfl, rfl⟩

theorem same_colour_update {P : Type} (c : Chunk) (a b : PngState P) (h : same_colour a b) :
    same_colour (chunk_next c a) (chunk_update c b) := by
  obtain ⟨h1, h2, h3, h4, h5⟩ := h
  unfold same_colour chunk_next chunk_update
  by_cases hc : c.ctype = cHRM
  · have hg : ¬ c.ctype = gAMA := by rw [hc]; decide
    simp [eq_true hc, eq_false hg, h1, h2, h3, h4, h5]
  · by_cases hg : c.ctype = gAMA
    · simp [eq_false hc, eq_true hg, h1, h2, h3, h4, h5]
    · simp [eq_false hc, eq_false hg, h1, h2, h3, h4, h5]

/-- Only the colour chunks of a stretch of non-stopping chunks matter for the
colour data. -/
theorem same_colour_fold {P : Type} :
    ∀ (cs : List Chunk) (a b : PngState P), same_colour a b →
      same_colour (cs.foldl (fun s c => chunk_next c s) a)
        ((cs.filter (fun c => colour c.ctype)).foldl (fun s c => chunk_update c s) b) := by
  intro cs
  induction cs with
  | nil => intro a b h; exact h
  | cons c cs ih =>
    intro a b h
    by_cases hc : colour c.ctype = true
    · simp only [List.foldl_cons, List.filter_cons, hc, if_true]
      exact ih _ _ (same_colour_update c a b h)
    · have hc2 : colour c.ctype = false := by simpa using hc
      simp only [List.foldl_cons, List.filter_cons, hc2]
      have := same_colour_update c a b h
      rw [chunk_update_plain c b hc2] at this
      exact ih _ _ this

theorem png_finish_congr {P TC Z : Type} (L : Libs P TC Z) (a b : PngState P)
    (h : same_colour a b) : png_finish L a = png_finish L b := by
  obtain ⟨h1, h2, h3, h4, h5⟩ := h
  simp [png_finish, h1, h2, h3, h4, h5]

theorem word32_be32_8 (v : Nat → Nat) (hv : ∀ k, k < 8 → v k < 4294967296) (k : Nat)
    (hk : k < 8) :
    word32 (be32 (v 0) ++ be32 (v 1) ++ be32 (v 2) ++ be32 (v 3) ++ be32 (v 4) ++ be32 (v 5) ++
      be32 (v 6) ++ be32 (v 7)) (4 * k) = v k := by
  have h0 := hv 0 (by omega)
  have h1 := hv 1 (by omega)
  have h2 := hv 2 (by omega)
  have h3 := hv 3 (by omega)
  have h4 := hv 4 (by omega)
  have h5 := hv 5 (by omega)
  have h6 := hv 6 (by omega)
  have h7 := hv 7 (by omega)
  have : k = 0 ∨ k = 1 ∨ k = 2 ∨ k = 3 ∨ k = 4 ∨ k = 5 ∨ k = 6 ∨ k = 7 := by omega
  rcases this with h | h | h | h | h | h | h | h <;> subst h <;> simp [word32, be32] <;> omega
/-! ## Faults of `png_inflate` and of the walk over chunks -/

theorem png_inflate_loop_returns {P TC Z : Type} (L : Libs P TC Z) :
    ∀ (n len : Nat) (out : List Byte) (strm : z_stream Z), 1 ≤ n → 2147483648 ≤ len * 2 ^ n →
      returns_or_overflows (png_inflate_loop L n len out strm) := by
  intro n
  induction n with
  | zero => intro len out strm h; omega
  | succ n ih =>
    intro len out strm _ hlen
    simp only [png_inflate_loop]
    split
    · exact Or.inl ⟨_, rfl⟩
    · split
      · exact Or.inr rfl
      · split
        · exact Or.inl ⟨_, rfl⟩
        · rename_i hov _
          have hn : 1 ≤ n := by
            rcases Nat.eq_zero_or_pos n with h0 | h0
            · subst h0; simp at hlen; omega
            · exact h0
          exact ih _ _ _ hn (by rw [Nat.pow_succ] at hlen; nlinarith)
    · exact Or.inl ⟨_, rfl⟩

/-- The function `png_inflate` reads nothing from the mapping and uses at most 17
of its 18 iterations. -/
theorem png_inflate_returns {P TC Z : Type} (L : Libs P TC Z) (input : List Byte) :
    returns_or_overflows (png_inflate L input) := by
  simp only [png_inflate]
  split
  · exact Or.inl ⟨_, rfl⟩
  · split
    · exact Or.inl ⟨_, rfl⟩
    · exact png_inflate_loop_returns L 18 16384 _ _ (by decide) (by decide)

theorem chunk_step_returns {P TC Z : Type} (L : Libs P TC Z) (c : Chunk) (st : PngState P) :
    returns_or_overflows (chunk_step L c st) := by
  simp only [chunk_step]
  split
  · exact Or.inl ⟨_, rfl⟩
  · split
    · rcases png_inflate_returns L (iccp_stream c) with ⟨b, h⟩ | h
      · cases b with
        | none => exact Or.inl ⟨Iter.brk st, by simp [h, bind, Except.bind, pure, Except.pure]⟩
        | some blob =>
          exact Or.inl ⟨Iter.brk { st with res := L.cmsOpenProfileFromMem blob },
            by simp [h, bind, Except.bind, pure, Except.pure]⟩
      · exact Or.inr (by simp [h, bind, Except.bind])
    · split <;> exact Or.inl ⟨_, rfl⟩

/-- The walk over chunks returns or stops on the overflow inside `png_inflate`. -/
theorem chunks_walk_returns {P TC Z : Type} (L : Libs P TC Z) :
    ∀ (cs : List Chunk) (st : PngState P), returns_or_overflows (chunks_walk L cs st) := by
  intro cs
  induction cs with
  | nil => intro st; exact Or.inl ⟨st, rfl⟩
  | cons c cs ih =>
    intro st
    simp only [chunks_walk]
    rcases chunk_step_returns L c st with ⟨it, h⟩ | h
    · cases it with
      | brk st1 => exact Or.inl ⟨st1, by simp [h, bind, Except.bind, pure, Except.pure]⟩
      | cont st1 =>
        rcases ih st1 with ⟨a, h2⟩ | h2
        · exact Or.inl ⟨a, by simp [h, h2, bind, Except.bind]⟩
        · exact Or.inr (by simp [h, h2, bind, Except.bind])
    · exact Or.inr (by simp [h, bind, Except.bind])

theorem stops_header (len4 t rest : List Byte) (h4 : len4.length = 4)
    (ht : critical t = true) : stops (len4 ++ t ++ rest) = true := by
  have htl : t.length = 4 := by
    simp only [critical, Bool.or_eq_true, decide_eq_true_eq] at ht
    rcases ht with (h | h) | h <;> subst h <;> rfl
  have h1 : ((len4 ++ t ++ rest).drop 4).take 4 = t := by
    rw [List.append_assoc, List.drop_append_of_le_length (by omega), ← h4, List.drop_length,
      List.nil_append, List.take_append_of_le_length (by omega), List.take_of_length_le (by omega)]
  simp [stops, h1, ht, h4, htl]
  omega

/-! ## C1 - the result is never NULL -/

/-- C1. Assume `cmsCreate_sRGBProfile` does not fail. For every outcome of
`open`/`fstat`/`mmap`, every mapped byte sequence and every behaviour of the
libraries: (1) when the second `open`, `fstat` or `mmap` fails, the function
returns the sRGB profile; (2) when the mapping succeeds and the probes return
`res`, the function returns a non-null profile, which is `res` when that is
non-null and the sRGB profile when no probe produced one; (3) whenever the
function returns, its result is non-null. -/
theorem C1_result_non_null {P TC Z : Type} (L : Libs P TC Z) (env : FileEnv) (fuel : Nat)
    (s : Sys) (hs : L.cmsCreate_sRGBProfile ≠ none) :
    ((env.open2 = false ∨ env.fstat = false ∨ env.mmap = none) →
      ∃ s1, img_get_colorspace L env fuel s = Except.ok (L.cmsCreate_sRGBProfile, s1)) ∧
    (∀ data res, Mapped env data → probes L fuel data = Except.ok res →
      ∃ r s1, img_get_colorspace L env fuel s = Except.ok (r, s1) ∧ r ≠ none ∧
        (res ≠ none → r = res) ∧ (res = none → r = L.cmsCreate_sRGBProfile)) ∧
    (∀ r s1, img_get_colorspace L env fuel s = Except.ok (r, s1) → r ≠ none) := by
  refine ⟨?_, ?_, ?_⟩
  · intro h
    by_cases h1 : env.open2 = false
    · exact ⟨_, by simp only [img_get_colorspace, h1, if_true]; rfl⟩
    by_cases h2 : env.fstat = false
    · exact ⟨_, by simp only [img_get_colorspace, h1, h2, if_true, if_false]; rfl⟩
    have h3 : env.mmap = none := by tauto
    exact ⟨_, by simp only [img_get_colorspace, h1, h2, h3, if_false]; rfl⟩
  · intro data res hm hp
    refine ⟨or_sRGB L res, sys_after env s,
      by simp [img_mapped L env fuel s data hm, hp, Except.map], ?_, ?_, ?_⟩
    · cases res <;> simp [or_sRGB, hs]
    · intro hr; cases res with
      | none => exact absurd rfl hr
      | some p => rfl
    · intro hr; subst hr; rfl
  · intro r s1 h
    by_cases h1 : env.open2 = false
    · simp [img_get_colorspace, h1, pure, Except.pure] at h
      rw [← h.1]; exact hs
    by_cases h2 : env.fstat = false
    · simp [img_get_colorspace, h1, h2, pure, Except.pure] at h
      rw [← h.1]; exact hs
    cases h3 : env.mmap with
    | none =>
      simp [img_get_colorspace, h1, h2, h3, pure, Except.pure] at h
      rw [← h.1]; exact hs
    | some data =>
      have hm : Mapped env data := ⟨by simpa using h1, by simpa using h2, h3⟩
      rw [img_mapped L env fuel s data hm] at h
      cases hp : probes L fuel data with
      | error e => simp [hp, Except.map] at h
      | ok res =>
        simp only [hp, Except.map, Except.ok.injEq, Prod.mk.injEq] at h
        rw [← h.1]
        cases res <;> simp [or_sRGB, hs]

/-- Witness of C1: with the symbolic libraries, a file that holds only the PNG
signature yields a non-null result, the sRGB profile. -/
theorem C1_result_non_null_witness :
    symLibs.cmsCreate_sRGBProfile ≠ none ∧
    ∃ r s1, img_get_colorspace symLibs (envOf png_sig) 0 sys0 = Except.ok (r, s1) ∧ r ≠ none ∧
      r = symLibs.cmsCreate_sRGBProfile :=
  ⟨by decide,
    let ⟨r, s1, h1, h2, _, h4⟩ :=
      (C1_result_non_null symLibs (envOf png_sig) 0 sys0 (by decide)).2.1 png_sig none
        (by decide) (by decide)
    ⟨r, s1, h1, h2, h4 rfl⟩⟩

/-! ## C2 - a PNG signature keeps the JPEG probe out -/

theorem walk_inv {P TC Z : Type} (L : Libs P TC Z) :
    ∀ (cs : List Chunk) (st : PngState P),
      st.custom = false → (st.res = none ∨ st.res = L.cmsCreate_sRGBProfile) →
      (∀ c ∈ cs, c.ctype ≠ cHRM ∧ c.ctype ≠ gAMA ∧
        (c.ctype = iCCP → png_inflate L (iccp_stream c) = Except.ok none)) →
      ∃ st1, chunks_walk L cs st = Except.ok st1 ∧ st1.custom = false ∧
        (st1.res = none ∨ st1.res = L.cmsCreate_sRGBProfile) := by
  intro cs
  induction cs with
  | nil => intro st h1 h2 _; exact ⟨st, rfl, h1, h2⟩
  | cons c cs ih =>
    intro st h1 h2 hc
    obtain ⟨n1, n2, n3⟩ := hc c (by simp)
    have hrest : ∀ x ∈ cs, x.ctype ≠ cHRM ∧ x.ctype ≠ gAMA ∧
        (x.ctype = iCCP → png_inflate L (iccp_stream x) = Except.ok none) :=
      fun x hx => hc x (by simp [hx])
    simp only [chunks_walk, chunk_step]
    by_cases hcr : critical c.ctype = true
    · exact ⟨st, by simp [hcr, bind, Except.bind, pure, Except.pure], h1, h2⟩
    by_cases hi : c.ctype = iCCP
    · exact ⟨st, by simp [hcr, hi, n3 hi, bind, Except.bind, pure, Except.pure], h1, h2⟩
    by_cases hsr : c.ctype = sRGB
    · exact ⟨{ st with res := L.cmsCreate_sRGBProfile },
        by simp [hcr, eq_false hi, eq_true hsr, bind, Except.bind, pure, Except.pure], h1, Or.inr rfl⟩
    · have hn : chunk_next c st = { st with pos := st.pos + c.bytes.length } := by
        simp [chunk_next, chunk_update, n1, n2]
      obtain ⟨st1, e, r1, r2⟩ := ih (chunk_next c st) (by simp [hn, h1]) (by simpa [hn] using h2) hrest
      exact ⟨st1, by simp [hcr, hi, hsr, bind, Except.bind, pure, Except.pure, e], r1, r2⟩

/-- C2. For every mapped file whose first 8 bytes are the PNG signature and on
which the EXIF probe yields no profile: (1) replacing the JPEG decoder by any
other leaves the outcome of `img_get_colorspace` unchanged; (2) the returned
profile is the PNG probe's when that is non-null and the sRGB profile
otherwise; (3) the file that holds only the signature yields the sRGB
profile; (4) a file of chunks none of which is `cHRM` or `gAMA` and whose
`iCCP` chunk fails to inflate yields the sRGB profile. -/
theorem C2_png_signature_excludes_jpeg {P TC Z : Type} (L : Libs P TC Z) (env : FileEnv)
    (fuel : Nat) (s : Sys) (data : List Byte) (hm : Mapped env data)
    (hsig : data.take 8 = png_sig) (hexif : exif_probe L data = Except.ok none) :
    (∀ j, img_get_colorspace { L with jpeg := j } env fuel s = img_get_colorspace L env fuel s) ∧
    img_get_colorspace L env fuel s =
      (png_probe L fuel data).map (fun res => (or_sRGB L res, sys_after env s)) ∧
    (data = png_sig →
      img_get_colorspace L env fuel s =
        Except.ok (L.cmsCreate_sRGBProfile, sys_after env s)) ∧
    (∀ cs rest, data = png_sig ++ encode cs ++ rest → data.length < 2147483648 →
      cs.length < fuel →
      (∀ c ∈ cs, c.wf = true ∧ c.ctype ≠ cHRM ∧ c.ctype ≠ gAMA) →
      (∃ c ∈ cs, c.ctype = iCCP) →
      (∀ c ∈ cs, c.ctype = iCCP → png_inflate L (iccp_stream c) = Except.ok none) →
      img_get_colorspace L env fuel s =
        Except.ok (L.cmsCreate_sRGBProfile, sys_after env s)) := by
  have h := img_mapped L env fuel s data hm
  have hpr := probes_png L fuel hsig hexif
  refine ⟨?_, by rw [h, hpr], ?_, ?_⟩
  · intro j
    have hexif2 : exif_probe { L with jpeg := j } data = Except.ok none := hexif
    rw [img_mapped { L with jpeg := j } env fuel s data hm, h,
      probes_png { L with jpeg := j } fuel hsig hexif2, hpr, png_probe_jpeg]
    rfl
  · intro hd
    subst hd
    rw [h, hpr]
    cases fuel <;> rfl
  · intro cs rest hd hlen hf hwf hex hinf
    subst hd
    have hh : stops rest = true ∨ ∃ c ∈ cs, halting c.ctype = true := by
      obtain ⟨c, hc, hi⟩ := hex
      exact Or.inr ⟨c, hc, by simp [halting, hi]⟩
    rw [h, hpr, png_probe_framed L fuel cs rest hlen (fun c hc => (hwf c hc).1) hh hf]
    obtain ⟨st1, e, r1, r2⟩ := walk_inv L cs (png_init P) rfl (Or.inl rfl)
      (fun c hc => ⟨(hwf c hc).2.1, (hwf c hc).2.2, hinf c hc⟩)
    rw [e]
    simp only [Except.map, png_finish, r1]
    rcases r2 with r2 | r2 <;> simp [r2, or_sRGB]
    cases hsp : L.cmsCreate_sRGBProfile <;> rfl

/-- Witness of C2: with a zlib that rejects every stream, the PNG with chunks
`tEXt`, `iCCP`, `sRGB`, `cHRM`, `IEND` yields the sRGB profile. -/
theorem C2_png_signature_excludes_jpeg_witness :
    Mapped (envOf file_iccp_first) file_iccp_first ∧ file_iccp_first.take 8 = png_sig ∧
    exif_probe noInflateLibs file_iccp_first = Except.ok none ∧
    img_get_colorspace noInflateLibs (envOf file_iccp_first) 3 sys0 =
      Except.ok (some Profile.srgb, sys_after (envOf file_iccp_first) sys0) :=
  ⟨by decide, by decide, by decide,
    (C2_png_signature_excludes_jpeg noInflateLibs (envOf file_iccp_first) 3 sys0 file_iccp_first
      (by decide) (by decide) (by decide)).2.2.2 [ex_text, ex_iccp]
      (encode [ex_srgb, ex_chrm] ++ ex_iend) rfl (by decide) (by decide) (by decide) (by decide)
      (by decide)⟩

/-! ## C3 - an EXIF profile first -/

/-- On every file in which the EXIF parser finds an `InterColorProfile` entry,
whether or not the ICC library accepts its bytes, the libexif block ends in
the read of the freed entry, and so does the probe chain for every fuel. -/
theorem exif_entry_present {P TC Z : Type} (L : Libs P TC Z) (data blob : List Byte)
    (h : L.exif_icc (data.take (u32 data.length)) = some (some blob)) :
    exif_probe L data = Except.error Fault.useAfterFree ∧
    ∀ fuel, probes L fuel data = Except.error Fault.useAfterFree := by
  have he : exif_probe L data = Except.error Fault.useAfterFree := by
    simp [exif_probe, h, exif_entry_unref, bind, Except.bind, pure, Except.pure]
  exact ⟨he, fun fuel => by simp [probes, he, bind, Except.bind]⟩

/-- C3, the code at the failing input. On a file in whose 0th IFD the EXIF
parser finds an `InterColorProfile` entry (here with the bytes `7 7 7`, which
the ICC library accepts), line 119 parses the entry into `res`, line 120 calls
`exif_entry_unref` on the entry, whose only reference belongs to its IFD, so
the entry is freed, and `exif_data_unref` of line 122 unrefs the freed entry
again: the run leaves defined behaviour before `goto end`, and the function
does not return the profile parsed from the entry. -/
theorem C3_exif_entry_unref :
    Mapped (envOf file_iccp_first) file_iccp_first ∧
    exifLibs.exif_icc (file_iccp_first.take (u32 file_iccp_first.length)) =
      some (some [7, 7, 7]) ∧
    exifLibs.cmsOpenProfileFromMem [7, 7, 7] = some (Profile.icc [7, 7, 7]) ∧
    exif_entry_unref 1 = Except.ok 0 ∧
    exif_entry_unref 0 = Except.error Fault.useAfterFree ∧
    exif_probe exifLibs file_iccp_first = Except.error Fault.useAfterFree ∧
    img_get_colorspace exifLibs (envOf file_iccp_first) 3 sys0 =
      Except.error Fault.useAfterFree ∧
    img_get_colorspace exifLibs (envOf file_iccp_first) 3 sys0 ≠
      Except.ok (some (Profile.icc [7, 7, 7]), sys_after (envOf file_iccp_first) sys0) := by
  decide

/-! ## C4 - `iCCP` against `sRGB` and `cHRM` -/

/-- C4, counterexample. In the PNG with chunks `sRGB`, `iCCP`, `cHRM`, `IEND`
(all before `IEND`, the `iCCP` stream inflating to `1 2 3`, which the ICC
library accepts) the walk stops at the `sRGB` chunk: the result is the sRGB
profile and not the profile parsed from the inflated `iCCP` payload. -/
theorem C4_counterexample :
    exif_probe symLibs file_srgb_iccp_chrm = Except.ok none ∧
    png_inflate symLibs (iccp_stream ex_iccp) = Except.ok (some [1, 2, 3]) ∧
    symLibs.cmsOpenProfileFromMem [1, 2, 3] = some (Profile.icc [1, 2, 3]) ∧
    img_get_colorspace symLibs (envOf file_srgb_iccp_chrm) 4 sys0 =
      Except.ok (some Profile.srgb, sys_after (envOf file_srgb_iccp_chrm) sys0) ∧
    some Profile.srgb ≠ some (Profile.icc [1, 2, 3]) := by
  decide

theorem fold_plain_same {P : Type} :
    ∀ (pre : List Chunk) (st : PngState P), (∀ x ∈ pre, colour x.ctype = false) →
      same_colour (pre.foldl (fun s c => chunk_next c s) st) st := by
  intro pre st h
  have := same_colour_fold pre st st (same_colour_refl st)
  have hf : pre.filter (fun c => colour c.ctype) = [] := by
    rw [List.filter_eq_nil_iff]
    intro x hx
    simp [h x hx]
  rw [hf] at this
  exact this

theorem halting_of {t : List Byte} (h1 : critical t = false) (h2 : colour t = false) :
    halting t = false := by
  simp only [colour, Bool.or_eq_false_iff, decide_eq_false_iff_not] at h2
  simp [halting, h1, h2.1.1.1, h2.1.1.2]

theorem chunk_step_iccp {P TC Z : Type} (L : Libs P TC Z) (c : Chunk) (st : PngState P)
    (blob : List Byte) (hi : c.ctype = iCCP)
    (hinf : png_inflate L (iccp_stream c) = Except.ok (some blob)) :
    chunk_step L c st = Except.ok (Iter.brk { st with res := L.cmsOpenProfileFromMem blob }) := by
  have hcr : critical c.ctype = false := by rw [hi]; decide
  simp [chunk_step, hcr, eq_true hi, hinf, bind, Except.bind, pure, Except.pure]

/-- C4, amended. For every PNG (EXIF probe yielding nothing, file below 2 GiB)
in which an `iCCP` chunk with a valid deflated ICC blob comes after chunks
that are neither critical nor one of `iCCP`, `sRGB`, `cHRM`, `gAMA`,
`img_get_colorspace` returns the profile parsed from the inflated `iCCP`
payload, whatever follows the `iCCP` chunk (an `sRGB` chunk, a `cHRM` chunk,
anything). -/
theorem C4_iccp_first {P TC Z : Type} (L : Libs P TC Z) (env : FileEnv) (fuel : Nat) (s : Sys)
    (pre : List Chunk) (c : Chunk) (rest blob : List Byte) (p : P)
    (hm : Mapped env (png_sig ++ encode (pre ++ [c]) ++ rest))
    (hexif : exif_probe L (png_sig ++ encode (pre ++ [c]) ++ rest) = Except.ok none)
    (hlen : (png_sig ++ encode (pre ++ [c]) ++ rest).length < 2147483648)
    (hf : pre.length + 1 < fuel)
    (hpre : ∀ x ∈ pre, x.wf = true ∧ critical x.ctype = false ∧ colour x.ctype = false)
    (hc : c.wf = true) (hi : c.ctype = iCCP)
    (hinf : png_inflate L (iccp_stream c) = Except.ok (some blob))
    (hicc : L.cmsOpenProfileFromMem blob = some p) :
    img_get_colorspace L env fuel s = Except.ok (some p, sys_after env s) := by
  have hwf : ∀ x ∈ pre ++ [c], x.wf = true := by
    intro x hx
    rcases List.mem_append.mp hx with hx | hx
    · exact (hpre x hx).1
    · simp at hx; rw [hx]; exact hc
  have hh : stops rest = true ∨ ∃ x ∈ pre ++ [c], halting x.ctype = true :=
    Or.inr ⟨c, by simp, by simp [halting, hi]⟩
  rw [img_framed L env fuel s (pre ++ [c]) rest hm hexif hlen hwf hh (by simpa using hf),
    chunks_walk_plain L pre [c] _ (fun x hx => halting_of (hpre x hx).2.1 (hpre x hx).2.2)]
  obtain ⟨h1, -, -, -, h5⟩ := fold_plain_same pre (png_init P) (fun x hx => (hpre x hx).2.2)
  simp only [chunks_walk, chunk_step_iccp L c _ blob hi hinf, bind, Except.bind, pure,
    Except.pure, Except.map, png_finish, h1]
  simp [png_init, hicc, or_sRGB]

/-- Witness of C4 (amended): the PNG with chunks `tEXt`, `iCCP`, `sRGB`, `cHRM`,
`IEND` yields the profile parsed from the inflated `iCCP` stream `1 2 3`. -/
theorem C4_iccp_first_witness :
    Mapped (envOf file_iccp_first) file_iccp_first ∧
    exif_probe symLibs file_iccp_first = Except.ok none ∧
    file_iccp_first.length < 2147483648 ∧
    (∀ x ∈ [ex_text], x.wf = true ∧ critical x.ctype = false ∧ colour x.ctype = false) ∧
    ex_iccp.wf = true ∧ ex_iccp.ctype = iCCP ∧
    png_inflate symLibs (iccp_stream ex_iccp) = Except.ok (some [1, 2, 3]) ∧
    symLibs.cmsOpenProfileFromMem [1, 2, 3] = some (Profile.icc [1, 2, 3]) ∧
    img_get_colorspace symLibs (envOf file_iccp_first) 3 sys0 =
      Except.ok (some (Profile.icc [1, 2, 3]), sys_after (envOf file_iccp_first) sys0) :=
  ⟨by decide, by decide, by decide, by decide, by decide, by decide, by decide, by decide,
    C4_iccp_first symLibs (envOf file_iccp_first) 3 sys0 [ex_text] ex_iccp
      (encode [ex_srgb, ex_chrm] ++ ex_iend) [1, 2, 3] (Profile.icc [1, 2, 3])
      (by decide) (by decide) (by decide) (by decide) (by decide) (by decide) (by decide)
      (by decide) (by decide)⟩

/-! ## C5 - `sRGB` against `cHRM` -/

/-- C5, the code at the failing input. In the PNG with chunks `cHRM`, `sRGB`,
`IEND` the `sRGB` chunk sets `res` and leaves the loop, and the block after the
loop overwrites `res` because `custom` is set: the result is the profile
synthesized from the `cHRM` values (with the default gamma 2.2), not the sRGB
profile. With the two chunks in the other order the result is the sRGB
profile. -/
theorem C5_chrm_before_srgb :
    exif_probe symLibs file_chrm_srgb = Except.ok none ∧
    img_get_colorspace symLibs (envOf file_chrm_srgb) 3 sys0 =
      Except.ok (some (Profile.rgb ⟨chunk_float ex_chrm 0, chunk_float ex_chrm 1, 1⟩
          ⟨⟨chunk_float ex_chrm 2, chunk_float ex_chrm 3, 1⟩,
           ⟨chunk_float ex_chrm 4, chunk_float ex_chrm 5, 1⟩,
           ⟨chunk_float ex_chrm 6, chunk_float ex_chrm 7, 1⟩⟩
          (some (Dbl.fin (22 / 10)), some (Dbl.fin (22 / 10)), some (Dbl.fin (22 / 10)))),
        sys_after (envOf file_chrm_srgb) sys0) ∧
    symLibs.cmsCreate_sRGBProfile = some Profile.srgb ∧
    img_get_colorspace symLibs (envOf file_srgb_chrm) 3 sys0 =
      Except.ok (some Profile.srgb, sys_after (envOf file_srgb_chrm) sys0) :=
  ⟨rfl, rfl, rfl, rfl⟩
/-! ## C6 - the parameters synthesized from `cHRM` and `gAMA` -/

theorem chrm_fields {P : Type} (chrm : Chunk) (st : PngState P) (hc : chrm.ctype = cHRM) :
    chunk_update chrm st =
      { st with white := ⟨chunk_float chrm 0, chunk_float chrm 1, 1⟩,
                prim := ⟨⟨chunk_float chrm 2, chunk_float chrm 3, 1⟩,
                         ⟨chunk_float chrm 4, chunk_float chrm 5, 1⟩,
                         ⟨chunk_float chrm 6, chunk_float chrm 7, 1⟩⟩,
                custom := true } := by
  have hg : ¬ chrm.ctype = gAMA := by rw [hc]; decide
  simp [chunk_update, eq_true hc, eq_false hg]

theorem gama_fields {P : Type} (gama : Chunk) (st : PngState P) (hg : gama.ctype = gAMA) :
    chunk_update gama st = { st with gamma := recip (chunk_float gama 0), custom := true } := by
  have hc : ¬ gama.ctype = cHRM := by rw [hg]; decide
  simp [chunk_update, eq_true hg, eq_false hc]

theorem recip_gama (g : Nat) (hg : 0 < g) :
    recip ((g : ℚ) / 100000) = Dbl.fin (100000 / (g : ℚ)) := by
  have h : (g : ℚ) ≠ 0 := by exact_mod_cast Nat.pos_iff_ne_zero.mp hg
  simp [recip, h]

/-- C6. For every PNG (EXIF probe yielding nothing, file below 2 GiB) made of
well-formed non-critical chunks followed by the end of the file or by an
`IEND`/`IDAT`/`PLTE` header, whose only colour chunks are one `cHRM` with the
big-endian values `v 0 .. v 7` and one `gAMA` with value `g > 0`, in either
order: the profile factory is called with white `(v0/100000, v1/100000, 1)`,
red `(v2/100000, v3/100000)`, green `(v4/100000, v5/100000)`, blue
`(v6/100000, v7/100000)` and one tone curve, built from gamma `100000/g`, for
all three channels; its result (or sRGB if it is NULL) is returned. -/
theorem C6_chrm_gama_parameters {P TC Z : Type} (L : Libs P TC Z) (env : FileEnv) (fuel : Nat)
    (s : Sys) (cs : List Chunk) (tail : List Byte) (chrm gama : Chunk) (v : Nat → Nat) (g : Nat)
    (hm : Mapped env (png_sig ++ encode cs ++ tail))
    (hexif : exif_probe L (png_sig ++ encode cs ++ tail) = Except.ok none)
    (hlen : (png_sig ++ encode cs ++ tail).length < 2147483648)
    (hf : cs.length < fuel)
    (hwf : ∀ c ∈ cs, c.wf = true ∧ critical c.ctype = false)
    (htail : stops tail = true)
    (hcol : cs.filter (fun c => colour c.ctype) = [chrm, gama] ∨
      cs.filter (fun c => colour c.ctype) = [gama, chrm])
    (hc : chrm.ctype = cHRM)
    (hcp : chrm.payload = be32 (v 0) ++ be32 (v 1) ++ be32 (v 2) ++ be32 (v 3) ++ be32 (v 4) ++
      be32 (v 5) ++ be32 (v 6) ++ be32 (v 7))
    (hv : ∀ k, k < 8 → v k < 4294967296)
    (hg : gama.ctype = gAMA) (hgp : gama.payload = be32 g) (hg0 : 0 < g)
    (hg1 : g < 4294967296) :
    img_get_colorspace L env fuel s =
      Except.ok (or_sRGB L (L.cmsCreateRGBProfile
          ⟨(v 0 : ℚ) / 100000, (v 1 : ℚ) / 100000, 1⟩
          ⟨⟨(v 2 : ℚ) / 100000, (v 3 : ℚ) / 100000, 1⟩,
           ⟨(v 4 : ℚ) / 100000, (v 5 : ℚ) / 100000, 1⟩,
           ⟨(v 6 : ℚ) / 100000, (v 7 : ℚ) / 100000, 1⟩⟩
          (L.cmsBuildGamma (Dbl.fin (100000 / (g : ℚ))),
           L.cmsBuildGamma (Dbl.fin (100000 / (g : ℚ))),
           L.cmsBuildGamma (Dbl.fin (100000 / (g : ℚ))))),
        sys_after env s) := by
  have hcf : ∀ k, k < 8 → chunk_float chrm k = (v k : ℚ) / 100000 := by
    intro k hk
    rw [chunk_float, hcp, word32_be32_8 v hv k hk]
  have hgf : chunk_float gama 0 = (g : ℚ) / 100000 := by
    have := word32_be32 g hg1 []
    rw [List.append_nil] at this
    rw [chunk_float, hgp, Nat.mul_zero, this]
  have hmem : ∀ c ∈ cs, colour c.ctype = true → c = chrm ∨ c = gama := by
    intro c hc1 hc2
    have : c ∈ cs.filter (fun c => colour c.ctype) := List.mem_filter.mpr ⟨hc1, hc2⟩
    rcases hcol with h | h <;> rw [h] at this <;> simp at this <;> tauto
  have hhalt : ∀ c ∈ cs, halting c.ctype = false := by
    intro c hc1
    have hcr := (hwf c hc1).2
    by_cases hcc : colour c.ctype = true
    · rcases hmem c hc1 hcc with h | h <;> subst h
      · simp [halting, hcr, hc]; decide
      · simp [halting, hcr, hg]; decide
    · exact halting_of hcr (by simpa using hcc)
  have hwalk := chunks_walk_plain L cs [] (png_init P) hhalt
  rw [List.append_nil] at hwalk
  rw [img_framed L env fuel s cs tail hm hexif hlen (fun c hc1 => (hwf c hc1).1) (Or.inl htail) hf,
    hwalk]
  have hsame := same_colour_fold cs (png_init P) (png_init P) (same_colour_refl _)
  simp only [chunks_walk, pure, Except.pure, Except.map]
  rw [png_finish_congr L _ _ hsame]
  rcases hcol with h | h <;> rw [h] <;>
    simp [chrm_fields _ _ hc, gama_fields _ _ hg, png_finish, hgf, recip_gama g hg0,
      hcf 0 (by omega), hcf 1 (by omega), hcf 2 (by omega), hcf 3 (by omega), hcf 4 (by omega),
      hcf 5 (by omega), hcf 6 (by omega), hcf 7 (by omega)]

/-- Witness of C6: the PNG with chunks `cHRM`, `tEXt`, `gAMA` (45455), `IEND`
yields the profile built from the `cHRM` values and gamma `100000/45455`. -/
theorem C6_chrm_gama_parameters_witness :
    Mapped (envOf file_chrm_gama) file_chrm_gama ∧
    exif_probe symLibs file_chrm_gama = Except.ok none ∧ file_chrm_gama.length < 2147483648 ∧
    (∀ c ∈ [ex_chrm, ex_text, ex_gama], c.wf = true ∧ critical c.ctype = false) ∧
    stops ex_iend = true ∧
    [ex_chrm, ex_text, ex_gama].filter (fun c => colour c.ctype) = [ex_chrm, ex_gama] ∧
    ex_chrm.payload = be32 (ex_values 0) ++ be32 (ex_values 1) ++ be32 (ex_values 2) ++
      be32 (ex_values 3) ++ be32 (ex_values 4) ++ be32 (ex_values 5) ++ be32 (ex_values 6) ++
      be32 (ex_values 7) ∧
    ex_gama.payload = be32 45455 ∧
    img_get_colorspace symLibs (envOf file_chrm_gama) 4 sys0 =
      Except.ok (some (Profile.rgb
          ⟨(ex_values 0 : ℚ) / 100000, (ex_values 1 : ℚ) / 100000, 1⟩
          ⟨⟨(ex_values 2 : ℚ) / 100000, (ex_values 3 : ℚ) / 100000, 1⟩,
           ⟨(ex_values 4 : ℚ) / 100000, (ex_values 5 : ℚ) / 100000, 1⟩,
           ⟨(ex_values 6 : ℚ) / 100000, (ex_values 7 : ℚ) / 100000, 1⟩⟩
          (some (Dbl.fin (100000 / ((45455 : Nat) : ℚ))),
           some (Dbl.fin (100000 / ((45455 : Nat) : ℚ))),
           some (Dbl.fin (100000 / ((45455 : Nat) : ℚ))))),
        sys_after (envOf file_chrm_gama) sys0) :=
  ⟨by decide, by decide, by decide, by decide, by decide, by decide, by decide, by decide,
    C6_chrm_gama_parameters symLibs (envOf file_chrm_gama) 4 sys0 [ex_chrm, ex_text, ex_gama]
      ex_iend ex_chrm ex_gama ex_values 45455 (by decide) (by decide) (by decide) (by decide)
      (by decide) (by decide) (Or.inl (by decide)) (by decide) (by decide) (by decide)
      (by decide) (by decide) (by decide) (by decide)⟩
/-! ## C7 - reads stay inside the mapping only for whole chunks -/

/-- C8, the code at the failing input. On the 16-byte file `89 50 4E 47 0D 0A
1A 0A FF FF FF F4 61 62 63 64` every read is inside the mapping, the chunk at
offset 8 has length field `0xFFFFFFF4`, and `pos += chunklen + 12` wraps
around to `pos = 8`: the loop body maps the loop state to itself, so the walk
does not end within any number of iterations, and neither does
`img_get_colorspace`. -/
theorem C8_walk_never_ends :
    file_wrap.length = 16 ∧ file_wrap.take 8 = png_sig ∧
    png_chunk symLibs file_wrap (png_init Profile) = Except.ok (Iter.cont (png_init Profile)) ∧
    (∀ fuel, png_walk symLibs file_wrap fuel (png_init Profile) =
      Except.error Fault.outOfFuel) ∧
    (∀ fuel, img_get_colorspace symLibs (envOf file_wrap) fuel sys0 =
      Except.error Fault.outOfFuel) := by
  have hstep : png_chunk symLibs file_wrap (png_init Profile) =
      Except.ok (Iter.cont (png_init Profile)) := rfl
  have hlt : (png_init Profile).pos < u32 file_wrap.length := by decide
  have hwalk : ∀ fuel, png_walk symLibs file_wrap fuel (png_init Profile) =
      Except.error Fault.outOfFuel := by
    intro fuel
    induction fuel with
    | zero => simp [png_walk, hlt]
    | succ f ih => simp [png_walk, hlt, hstep, bind, Except.bind, ih]
  refine ⟨rfl, rfl, hstep, hwalk, ?_⟩
  intro fuel
  rw [img_mapped symLibs (envOf file_wrap) fuel sys0 file_wrap (by decide),
    probes_png symLibs fuel (by decide) (by decide)]
  simp [png_probe, hwalk fuel, bind, Except.bind, Except.map]

/-! ## C9 - descriptors and mappings -/

/-- C9, the code at the failing input. The file is opened at line 101 and again
at line 103; only the second descriptor is ever closed. With descriptors 0, 1,
2 open before the call on a file that holds only the PNG signature, descriptor
3 is still open after the call (the mapping is released); the same holds when
`fstat` or `mmap` fails, and when the second `open` fails. From any process
state, a call in which every system call succeeds ends with one descriptor
more than it started with; it ends with the mappings it started with when the
file is below 2 GiB, and with the new mapping still in place otherwise,
because `munmap` is then called with a truncated `int` length. -/
theorem C9_descriptor_leak :
    img_get_colorspace symLibs (envOf png_sig) 1 sys0 =
      Except.ok (some Profile.srgb, ⟨[3, 0, 1, 2], []⟩) ∧
    img_get_colorspace symLibs ⟨true, true, false, some png_sig⟩ 1 sys0 =
      Except.ok (some Profile.srgb, ⟨[3, 0, 1, 2], []⟩) ∧
    img_get_colorspace symLibs ⟨true, true, true, none⟩ 1 sys0 =
      Except.ok (some Profile.srgb, ⟨[3, 0, 1, 2], []⟩) ∧
    img_get_colorspace symLibs ⟨true, false, true, none⟩ 1 sys0 =
      Except.ok (some Profile.srgb, ⟨[3, 0, 1, 2], []⟩) ∧
    sys0.fds = [0, 1, 2] ∧
    (∀ (s : Sys) (data : List Byte),
      (sys_after (envOf data) s).fds = fresh s.fds :: s.fds ∧
      (sys_after (envOf data) s).maps =
        if data.length < 2147483648 then s.maps else fresh s.maps :: s.maps) := by
  refine ⟨by decide, by decide, by decide, by decide, by decide, ?_⟩
  intro s data
  by_cases h : data.length < 2147483648 <;>
    simp [sys_after, envOf, sys_open, sys_close, sys_mmap, sys_munmap, h]

/-! ## C10 - bytes after the first critical chunk -/

/-- C10, counterexample. Two 48-byte files agree on their first 28 bytes: the
signature, a `cHRM` chunk that declares an empty payload, and the length and
type fields of `IEND`. The walk reads the eight `cHRM` values from the 32 bytes
that follow the `cHRM` header, which run past the `IEND` type field, so the
files (20 bytes `00` against 20 bytes `01` after that field) yield different
profiles. -/
theorem C10_counterexample :
    (file_short_chrm 0).take 28 = (file_short_chrm 1).take 28 ∧
    ((file_short_chrm 0).drop 24).take 4 = IEND ∧
    ntohl (file_short_chrm 0) 8 = Except.ok 0 ∧ ntohl (file_short_chrm 0) 20 = Except.ok 0 ∧
    (file_short_chrm 0).length = 48 ∧ (file_short_chrm 1).length = 48 ∧
    png_probe symLibs 2 (file_short_chrm 0) ≠ png_probe symLibs 2 (file_short_chrm 1) := by
  refine ⟨by decide, by decide, by decide, by decide, by decide, by decide, ?_⟩
  have h0 : png_probe symLibs 2 (file_short_chrm 0) =
      Except.ok (some (Profile.rgb ⟨((0 : Nat) : ℚ) / 100000, ((0 : Nat) : ℚ) / 100000, 1⟩
        ⟨⟨((1229278788 : Nat) : ℚ) / 100000, ((0 : Nat) : ℚ) / 100000, 1⟩,
         ⟨((0 : Nat) : ℚ) / 100000, ((0 : Nat) : ℚ) / 100000, 1⟩,
         ⟨((0 : Nat) : ℚ) / 100000, ((0 : Nat) : ℚ) / 100000, 1⟩⟩
        (some (Dbl.fin (22 / 10)), some (Dbl.fin (22 / 10)), some (Dbl.fin (22 / 10))))) := rfl
  have h1 : png_probe symLibs 2 (file_short_chrm 1) =
      Except.ok (some (Profile.rgb ⟨((0 : Nat) : ℚ) / 100000, ((0 : Nat) : ℚ) / 100000, 1⟩
        ⟨⟨((1229278788 : Nat) : ℚ) / 100000, ((16843009 : Nat) : ℚ) / 100000, 1⟩,
         ⟨((16843009 : Nat) : ℚ) / 100000, ((16843009 : Nat) : ℚ) / 100000, 1⟩,
         ⟨((16843009 : Nat) : ℚ) / 100000, ((16843009 : Nat) : ℚ) / 100000, 1⟩⟩
        (some (Dbl.fin (22 / 10)), some (Dbl.fin (22 / 10)), some (Dbl.fin (22 / 10))))) := rfl
  rw [h0, h1]
  intro h
  simp only [Except.ok.injEq, Option.some.injEq, Profile.rgb.injEq, cmsCIExyYTRIPLE.mk.injEq,
    cmsCIExyY.mk.injEq] at h
  have := h.2.1.1.2.1
  norm_num at this

/-- C10, amended. For every two PNG byte sequences below 2 GiB that consist of
the same whole chunks (as in C7: `cHRM` payloads of at least 32 bytes, `gAMA`
payloads of at least 4, `iCCP` names terminated inside the payload) followed
by the same length and type fields of an `IEND`, `IDAT` or `PLTE` chunk, the
PNG probe produces the same result whatever bytes follow that type field; with
the EXIF probe yielding nothing on both, so does the whole probe chain. -/
theorem C10_after_critical {P TC Z : Type} (L : Libs P TC Z) (fuel : Nat) (cs : List Chunk)
    (len4 t rest1 rest2 : List Byte)
    (hlen1 : (png_sig ++ encode cs ++ (len4 ++ t ++ rest1)).length < 2147483648)
    (hlen2 : (png_sig ++ encode cs ++ (len4 ++ t ++ rest2)).length < 2147483648)
    (hwf : ∀ c ∈ cs, c.wf = true) (h4 : len4.length = 4) (ht : critical t = true)
    (hf : cs.length < fuel) :
    png_probe L fuel (png_sig ++ encode cs ++ (len4 ++ t ++ rest1)) =
      png_probe L fuel (png_sig ++ encode cs ++ (len4 ++ t ++ rest2)) ∧
    (exif_probe L (png_sig ++ encode cs ++ (len4 ++ t ++ rest1)) = Except.ok none →
      exif_probe L (png_sig ++ encode cs ++ (len4 ++ t ++ rest2)) = Except.ok none →
      probes L fuel (png_sig ++ encode cs ++ (len4 ++ t ++ rest1)) =
        probes L fuel (png_sig ++ encode cs ++ (len4 ++ t ++ rest2))) := by
  have e : png_probe L fuel (png_sig ++ encode cs ++ (len4 ++ t ++ rest1)) =
      png_probe L fuel (png_sig ++ encode cs ++ (len4 ++ t ++ rest2)) := by
    rw [png_probe_framed L fuel cs _ hlen1 hwf (Or.inl (stops_header len4 t rest1 h4 ht)) hf,
      png_probe_framed L fuel cs _ hlen2 hwf (Or.inl (stops_header len4 t rest2 h4 ht)) hf]
  refine ⟨e, fun h1 h2 => ?_⟩
  have s1 : (png_sig ++ encode cs ++ (len4 ++ t ++ rest1)).take 8 = png_sig := by
    rw [List.append_assoc]; exact take_sig _
  have s2 : (png_sig ++ encode cs ++ (len4 ++ t ++ rest2)).take 8 = png_sig := by
    rw [List.append_assoc]; exact take_sig _
  rw [probes_png L fuel s1 h1, probes_png L fuel s2 h2, e]

/-- Witness of C10 (amended): after `cHRM`, `gAMA` and the `IEND` header, an
`iCCP` chunk in one file and nothing in the other give the same result. -/
theorem C10_after_critical_witness :
    (png_sig ++ encode [ex_chrm, ex_gama] ++ (be32 0 ++ IEND ++ (crc0 ++ ex_iccp.bytes))).length
      < 2147483648 ∧
    (png_sig ++ encode [ex_chrm, ex_gama] ++ (be32 0 ++ IEND ++ crc0)).length < 2147483648 ∧
    (∀ c ∈ [ex_chrm, ex_gama], c.wf = true) ∧ (be32 0).length = 4 ∧ critical IEND = true ∧
    png_probe symLibs 3 (png_sig ++ encode [ex_chrm, ex_gama] ++
        (be32 0 ++ IEND ++ (crc0 ++ ex_iccp.bytes))) =
      png_probe symLibs 3 (png_sig ++ encode [ex_chrm, ex_gama] ++ (be32 0 ++ IEND ++ crc0)) :=
  ⟨by decide, by decide, by decide, by decide, by decide,
    (C10_after_critical symLibs 3 [ex_chrm, ex_gama] (be32 0) IEND (crc0 ++ ex_iccp.bytes) crc0
      (by decide) (by decide) (by decide) (by decide) (by decide) (by decide)).1⟩
/-! ## C11 - one of `cHRM` and `gAMA` alone, or neither -/

theorem walk_no_stop {P TC Z : Type} (L : Libs P TC Z) (cs : List Chunk) (st : PngState P)
    (hcr : ∀ c ∈ cs, critical c.ctype = false)
    (hcol : ∀ c ∈ cs, colour c.ctype = true → c.ctype = cHRM ∨ c.ctype = gAMA) :
    ∃ st1, chunks_walk L cs st = Except.ok st1 ∧
      same_colour st1 ((cs.filter (fun c => colour c.ctype)).foldl
        (fun s c => chunk_update c s) st) := by
  have hhalt : ∀ c ∈ cs, halting c.ctype = false := by
    intro c hc1
    by_cases hcc : colour c.ctype = true
    · rcases hcol c hc1 hcc with h | h
      · simp [halting, hcr c hc1, h]; decide
      · simp [halting, hcr c hc1, h]; decide
    · exact halting_of (hcr c hc1) (by simpa using hcc)
  have hwalk := chunks_walk_plain L cs [] st hhalt
  rw [List.append_nil] at hwalk
  exact ⟨_, by rw [hwalk]; rfl, same_colour_fold cs st st (same_colour_refl st)⟩

/-- C11. For every PNG (EXIF probe yielding nothing, file below 2 GiB) made of
well-formed non-critical chunks followed by the end of the file or by an
`IEND`/`IDAT`/`PLTE` header: (1) if its only colour chunk is a `gAMA` with
value `g > 0`, the profile factory is called with white (0.3127, 0.3290, 1),
primaries (0.64, 0.33), (0.30, 0.60), (0.15, 0.06) (their `Y` is the
zero-initialised 0) and a tone curve built from gamma `100000/g`; (2) if its
only colour chunk is a `cHRM` with values `v 0 .. v 7`, the factory is called
with the chunk's chromaticities and a tone curve built from gamma 2.2; (3) if
it has no colour chunk, no profile is synthesized: the PNG probe yields none
and the function returns the sRGB profile. -/
theorem C11_partial_colour_data {P TC Z : Type} (L : Libs P TC Z) (env : FileEnv) (fuel : Nat)
    (s : Sys) (cs : List Chunk) (tail : List Byte)
    (hm : Mapped env (png_sig ++ encode cs ++ tail))
    (hexif : exif_probe L (png_sig ++ encode cs ++ tail) = Except.ok none)
    (hlen : (png_sig ++ encode cs ++ tail).length < 2147483648)
    (hf : cs.length < fuel)
    (hwf : ∀ c ∈ cs, c.wf = true ∧ critical c.ctype = false)
    (htail : stops tail = true) :
    (∀ (gama : Chunk) (g : Nat), cs.filter (fun c => colour c.ctype) = [gama] →
      gama.ctype = gAMA → gama.payload = be32 g → 0 < g → g < 4294967296 →
      img_get_colorspace L env fuel s =
        Except.ok (or_sRGB L (L.cmsCreateRGBProfile
            ⟨3127 / 10000, 3290 / 10000, 1⟩
            ⟨⟨64 / 100, 33 / 100, 0⟩, ⟨30 / 100, 60 / 100, 0⟩, ⟨15 / 100, 6 / 100, 0⟩⟩
            (L.cmsBuildGamma (Dbl.fin (100000 / (g : ℚ))),
             L.cmsBuildGamma (Dbl.fin (100000 / (g : ℚ))),
             L.cmsBuildGamma (Dbl.fin (100000 / (g : ℚ))))),
          sys_after env s)) ∧
    (∀ (chrm : Chunk) (v : Nat → Nat), cs.filter (fun c => colour c.ctype) = [chrm] →
      chrm.ctype = cHRM →
      chrm.payload = be32 (v 0) ++ be32 (v 1) ++ be32 (v 2) ++ be32 (v 3) ++ be32 (v 4) ++
        be32 (v 5) ++ be32 (v 6) ++ be32 (v 7) →
      (∀ k, k < 8 → v k < 4294967296) →
      img_get_colorspace L env fuel s =
        Except.ok (or_sRGB L (L.cmsCreateRGBProfile
            ⟨(v 0 : ℚ) / 100000, (v 1 : ℚ) / 100000, 1⟩
            ⟨⟨(v 2 : ℚ) / 100000, (v 3 : ℚ) / 100000, 1⟩,
             ⟨(v 4 : ℚ) / 100000, (v 5 : ℚ) / 100000, 1⟩,
             ⟨(v 6 : ℚ) / 100000, (v 7 : ℚ) / 100000, 1⟩⟩
            (L.cmsBuildGamma (Dbl.fin (22 / 10)), L.cmsBuildGamma (Dbl.fin (22 / 10)),
             L.cmsBuildGamma (Dbl.fin (22 / 10)))),
          sys_after env s)) ∧
    (cs.filter (fun c => colour c.ctype) = [] →
      png_probe L fuel (png_sig ++ encode cs ++ tail) = Except.ok none ∧
      img_get_colorspace L env fuel s =
        Except.ok (L.cmsCreate_sRGBProfile, sys_after env s)) := by
  have hfr := img_framed L env fuel s cs tail hm hexif hlen (fun c hc => (hwf c hc).1)
    (Or.inl htail) hf
  have hpf := png_probe_framed L fuel cs tail hlen (fun c hc => (hwf c hc).1) (Or.inl htail) hf
  have hmem : ∀ (l : List Chunk), cs.filter (fun c => colour c.ctype) = l →
      ∀ c ∈ cs, colour c.ctype = true → c ∈ l := by
    intro l hl c hc1 hc2
    rw [← hl]; exact List.mem_filter.mpr ⟨hc1, hc2⟩
  refine ⟨?_, ?_, ?_⟩
  · intro gama g hcol hg hgp hg0 hg1
    have hgf : chunk_float gama 0 = (g : ℚ) / 100000 := by
      have := word32_be32 g hg1 []
      rw [List.append_nil] at this
      rw [chunk_float, hgp, Nat.mul_zero, this]
    obtain ⟨st1, hw, hsame⟩ := walk_no_stop L cs (png_init P) (fun c hc => (hwf c hc).2)
      (fun c hc1 hc2 => by
        have := hmem _ hcol c hc1 hc2
        simp at this; subst this; exact Or.inr hg)
    rw [hfr, hw]
    simp only [Except.map]
    rw [png_finish_congr L _ _ hsame, hcol]
    simp [gama_fields _ _ hg, png_finish, hgf, recip_gama g hg0, png_init]
  · intro chrm v hcol hc hcp hv
    have hcf : ∀ k, k < 8 → chunk_float chrm k = (v k : ℚ) / 100000 := by
      intro k hk
      rw [chunk_float, hcp, word32_be32_8 v hv k hk]
    obtain ⟨st1, hw, hsame⟩ := walk_no_stop L cs (png_init P) (fun c hc => (hwf c hc).2)
      (fun c hc1 hc2 => by
        have := hmem _ hcol c hc1 hc2
        simp at this; subst this; exact Or.inl hc)
    rw [hfr, hw]
    simp only [Except.map]
    rw [png_finish_congr L _ _ hsame, hcol]
    simp [chrm_fields _ _ hc, png_finish, png_init,
      hcf 0 (by omega), hcf 1 (by omega), hcf 2 (by omega), hcf 3 (by omega), hcf 4 (by omega),
      hcf 5 (by omega), hcf 6 (by omega), hcf 7 (by omega)]
  · intro hcol
    obtain ⟨st1, hw, hsame⟩ := walk_no_stop L cs (png_init P) (fun c hc => (hwf c hc).2)
      (fun c hc1 hc2 => by
        have := hmem _ hcol c hc1 hc2
        simp at this)
    rw [hfr, hpf, hw]
    simp only [Except.map]
    rw [png_finish_congr L _ _ hsame, hcol]
    simp [png_finish, png_init, or_sRGB]

/-- Witness of C11: the PNG `tEXt`, `gAMA` (45455), `IEND` yields the profile
built from the default white point and primaries and gamma `100000/45455`; the
PNG `cHRM`, `IEND` the one built from the chunk values and gamma 2.2; the PNG
`tEXt`, `IEND` yields no PNG profile and so sRGB. -/
theorem C11_partial_colour_data_witness :
    (Mapped (envOf file_gama_only) file_gama_only ∧ exif_probe symLibs file_gama_only = Except.ok none ∧
      file_gama_only.length < 2147483648 ∧
      (∀ c ∈ [ex_text, ex_gama], c.wf = true ∧ critical c.ctype = false) ∧
      stops ex_iend = true ∧
      img_get_colorspace symLibs (envOf file_gama_only) 3 sys0 =
        Except.ok (some (Profile.rgb ⟨3127 / 10000, 3290 / 10000, 1⟩
            ⟨⟨64 / 100, 33 / 100, 0⟩, ⟨30 / 100, 60 / 100, 0⟩, ⟨15 / 100, 6 / 100, 0⟩⟩
            (some (Dbl.fin (100000 / ((45455 : Nat) : ℚ))),
             some (Dbl.fin (100000 / ((45455 : Nat) : ℚ))),
             some (Dbl.fin (100000 / ((45455 : Nat) : ℚ))))),
          sys_after (envOf file_gama_only) sys0)) ∧
    img_get_colorspace symLibs (envOf file_chrm_only) 2 sys0 =
      Except.ok (some (Profile.rgb
          ⟨(ex_values 0 : ℚ) / 100000, (ex_values 1 : ℚ) / 100000, 1⟩
          ⟨⟨(ex_values 2 : ℚ) / 100000, (ex_values 3 : ℚ) / 100000, 1⟩,
           ⟨(ex_values 4 : ℚ) / 100000, (ex_values 5 : ℚ) / 100000, 1⟩,
           ⟨(ex_values 6 : ℚ) / 100000, (ex_values 7 : ℚ) / 100000, 1⟩⟩
          (some (Dbl.fin (22 / 10)), some (Dbl.fin (22 / 10)), some (Dbl.fin (22 / 10)))),
        sys_after (envOf file_chrm_only) sys0) ∧
    (png_probe symLibs 2 file_no_colour = Except.ok none ∧
      img_get_colorspace symLibs (envOf file_no_colour) 2 sys0 =
        Except.ok (some Profile.srgb, sys_after (envOf file_no_colour) sys0)) :=
  ⟨⟨by decide, by decide, by decide, by decide, by decide,
      (C11_partial_colour_data symLibs (envOf file_gama_only) 3 sys0 [ex_text, ex_gama] ex_iend
        (by decide) (by decide) (by decide) (by decide) (by decide) (by decide)).1
        ex_gama 45455 (by decide) (by decide) (by decide) (by decide) (by decide)⟩,
    (C11_partial_colour_data symLibs (envOf file_chrm_only) 2 sys0 [ex_chrm] ex_iend
      (by decide) (by decide) (by decide) (by decide) (by decide) (by decide)).2.1
      ex_chrm ex_values (by decide) (by decide) (by decide) (by decide),
    (C11_partial_colour_data symLibs (envOf file_no_colour) 2 sys0 [ex_text] ex_iend
      (by decide) (by decide) (by decide) (by decide) (by decide) (by decide)).2.2
      (by decide)⟩

/-! ## C12 - the input handed to `png_inflate` -/

/-- C12. For every mapping below 2 GiB and every offset `pos` at which the
length field reads `len`, the type field reads `iCCP`, and the payload
`P = data[pos+8 .. pos+8+len)` lies in the mapping and has its first NUL at
index `n` with `n + 2 ≤ len`: the name scan returns `n`; the input handed to
`png_inflate` is `P[n+2 .. len)`, which has `len - n - 2` bytes and is the
range `data[pos+8+n+2 .. pos+8+len)` (so it ends with the last payload byte,
before the CRC); and the loop body does with this chunk what lines 159-163 do
with that input. -/
theorem C12_iccp_inflate_input {P TC Z : Type} (L : Libs P TC Z) (data : List Byte)
    (st : PngState P) (len n : Nat) (hlen : data.length < 2147483648)
    (hl : ntohl data st.pos = Except.ok len)
    (htype : (data.drop (st.pos + 4)).take 4 = iCCP)
    (hfit : st.pos + 8 + len ≤ data.length)
    (hn : ((data.drop (st.pos + 8)).take len).indexOf 0 = n) (hn2 : n + 2 ≤ len) :
    scan_name data st.pos 2147483648 0 = Except.ok n ∧
    iccp_input data st.pos len n = Except.ok (((data.drop (st.pos + 8)).take len).drop (n + 2)) ∧
    (((data.drop (st.pos + 8)).take len).drop (n + 2)).length = len - n - 2 ∧
    ((data.drop (st.pos + 8)).take len).drop (n + 2) =
      (data.drop (st.pos + 8 + n + 2)).take (len - n - 2) ∧
    png_chunk L data st =
      iccp_finish L st (((data.drop (st.pos + 8)).take len).drop (n + 2)) := by
  have hpl : ((data.drop (st.pos + 8)).take len).length = len := by
    rw [List.length_take, List.length_drop]; omega
  have hd8 : data.drop (st.pos + 8) =
      (data.drop (st.pos + 8)).take len ++ data.drop (st.pos + 8 + len) := by
    have h := List.take_append_drop len (data.drop (st.pos + 8))
    rw [List.drop_drop] at h
    exact h.symm
  have hd4 : data.drop (st.pos + 4) = iCCP ++ data.drop (st.pos + 8) := by
    have h := List.take_append_drop 4 (data.drop (st.pos + 4))
    rw [htype, List.drop_drop] at h
    rw [show st.pos + 4 + 4 = st.pos + 8 by omega] at h
    exact h.symm
  have hscan : scan_name data st.pos 2147483648 0 = Except.ok n := by
    have h := scan_append data st.pos ((data.drop (st.pos + 8)).take len)
      (data.drop (st.pos + 8 + len)) 2147483648 0 (by simp only [Nat.add_zero]; exact hd8)
      (by rw [hn, hpl]; omega) (by rw [hn]; omega) (by rw [hpl]; omega)
    rw [hn] at h
    simpa using h
  have hin : iccp_input data st.pos len n =
      Except.ok (((data.drop (st.pos + 8)).take len).drop (n + 2)) := by
    have h := slice_append hd8 (by rw [hpl]; omega) (n + 2) (by rw [hpl]; exact hn2)
    rw [hpl] at h
    rw [iccp_input, u32_of_lt (by omega)]
    have e : u32 (len + 4294967296 - n - 2) = len - (n + 2) := by
      unfold u32; omega
    rw [e, show st.pos + 8 + n + 2 = st.pos + 8 + (n + 2) by omega, h]
  have hC : ∀ s, (s = IEND ∨ s = IDAT ∨ s = PLTE ∨ s = iCCP ∨ s = sRGB ∨ s = cHRM ∨ s = gAMA) →
      CHUNK data st.pos s = Except.ok (decide (iCCP = s)) := fun s hs => by
    rw [CHUNK, u32_of_lt (by omega)]
    exact strncmp_append data s (lit_ne s hs).1 _ _ _ hd4 (by rw [(lit_ne s hs).2]; rfl)
  refine ⟨hscan, hin, by rw [List.length_drop, hpl]; omega, ?_, ?_⟩
  · rw [List.drop_take, List.drop_drop]
    rw [show st.pos + 8 + (n + 2) = st.pos + 8 + n + 2 by omega,
      show len - (n + 2) = len - n - 2 by omega]
  · unfold png_chunk iccp_finish
    simp only [hl, hC IEND (by simp), hC IDAT (by simp), hC PLTE (by simp), hC iCCP (by simp),
      hscan, hin, bind, Except.bind]
    have d1 : decide (iCCP = IEND) = false := by decide
    have d2 : decide (iCCP = IDAT) = false := by decide
    have d3 : decide (iCCP = PLTE) = false := by decide
    simp [d1, d2, d3]

/-- Witness of C12: in the PNG `tEXt`, `iCCP`, `sRGB`, `cHRM`, `IEND` the `iCCP`
chunk is at offset 21 with length 6 and payload `41 00 00 01 02 03`; the name
ends at index 1 and the input handed to `png_inflate` is `01 02 03`. -/
theorem C12_iccp_inflate_input_witness :
    file_iccp_first.length < 2147483648 ∧ ntohl file_iccp_first 21 = Except.ok 6 ∧
    (file_iccp_first.drop (21 + 4)).take 4 = iCCP ∧ 21 + 8 + 6 ≤ file_iccp_first.length ∧
    ((file_iccp_first.drop (21 + 8)).take 6).indexOf 0 = 1 ∧
    (file_iccp_first.drop (21 + 8)).take 6 = [65, 0, 0, 1, 2, 3] ∧
    iccp_input file_iccp_first 21 6 1 = Except.ok [1, 2, 3] :=
  ⟨by decide, by decide, by decide, by decide, by decide, by decide,
    (C12_iccp_inflate_input symLibs file_iccp_first
      { png_init Profile with pos := 21 } 6 1 (by decide) (by decide) (by decide) (by decide)
      (by decide) (by decide)).2.1⟩

/-! ## C13 - the gamma handed to the tone-curve builder -/

/-- C13, counterexample. In the PNG with chunks `gAMA` (value 0), `IEND` the walk
sets `custom`, `FLOAT(0)` is `0/100000` and `1.0 / FLOAT(0)` divides by zero:
the tone-curve builder is handed the quotient `+inf`, not a finite real. -/
theorem C13_counterexample :
    file_gama_zero.take 8 = png_sig ∧ stops ex_iend = true ∧ ex_gama_zero.wf = true ∧
    FLOAT file_gama_zero 8 0 = Except.ok (((0 : Nat) : ℚ) / 100000) ∧
    (∃ st, png_walk symLibs file_gama_zero 2 (png_init Profile) = Except.ok st ∧
      st.custom = true ∧ st.gamma = Dbl.inf) ∧
    png_probe symLibs 2 file_gama_zero =
      Except.ok (some (Profile.rgb ⟨3127 / 10000, 3290 / 10000, 1⟩
        ⟨⟨64 / 100, 33 / 100, 0⟩, ⟨30 / 100, 60 / 100, 0⟩, ⟨15 / 100, 6 / 100, 0⟩⟩
        (some Dbl.inf, some Dbl.inf, some Dbl.inf))) ∧
    (∀ q : ℚ, Dbl.inf ≠ Dbl.fin q) := by
  have hr : recip (((0 : Nat) : ℚ) / 100000) = Dbl.inf := by simp [recip]
  have hw : png_walk symLibs file_gama_zero 2 (png_init Profile) =
      Except.ok { png_init Profile with pos := 24, custom := true,
                                        gamma := recip (((0 : Nat) : ℚ) / 100000) } := rfl
  have hp : png_probe symLibs 2 file_gama_zero =
      Except.ok (some (Profile.rgb ⟨3127 / 10000, 3290 / 10000, 1⟩
        ⟨⟨64 / 100, 33 / 100, 0⟩, ⟨30 / 100, 60 / 100, 0⟩, ⟨15 / 100, 6 / 100, 0⟩⟩
        (some (recip (((0 : Nat) : ℚ) / 100000)), some (recip (((0 : Nat) : ℚ) / 100000)),
         some (recip (((0 : Nat) : ℚ) / 100000))))) := rfl
  refine ⟨by decide, by decide, by decide, rfl, ⟨_, hw, rfl, hr⟩, ?_, ?_⟩
  · rw [hp, hr]
  · intro q h; cases h

theorem bind_ok {α β : Type} (x : M α) (f : α → M β) (r : β)
    (h : (x >>= f) = Except.ok r) : ∃ a, x = Except.ok a ∧ f a = Except.ok r := by
  cases x with
  | error e => cases h
  | ok a => exact ⟨a, rfl, h⟩

theorem CHUNK_true_head (data : List Byte) (pos : Nat) (c : Byte) (cs : List Byte)
    (h : CHUNK data pos (c :: cs) = Except.ok true) :
    rd data (u32 (pos + 4)) = Except.ok c := by
  unfold CHUNK strncmp_is0 at h
  obtain ⟨a, ha, h⟩ := bind_ok _ _ _ h
  by_cases hac : a = c
  · rw [ha, hac]
  · simp [hac, pure, Except.pure] at h

theorem gama_at_none {P : Type} (data : List Byte) (st : PngState P) (x : Byte)
    (xs : List Byte) (hx : CHUNK data st.pos (x :: xs) = Except.ok true) (hne : x ≠ 103) :
    gama_at data st = none := by
  unfold gama_at
  cases hg : CHUNK data st.pos gAMA with
  | error e => rfl
  | ok b =>
    cases b with
    | false => rfl
    | true =>
      have h1 := CHUNK_true_head data st.pos x xs hx
      have h2 := CHUNK_true_head data st.pos 103 [65, 77, 65] hg
      rw [h1] at h2
      exact absurd (Except.ok.inj h2) hne

theorem png_chunk_gamma {P TC Z : Type} (L : Libs P TC Z) (data : List Byte)
    (st : PngState P) (it : Iter P) (h : png_chunk L data st = Except.ok it) :
    (∀ st1, it = Iter.brk st1 → st1.gamma = st.gamma ∧ gama_at data st = none) ∧
    (∀ st1, it = Iter.cont st1 →
      st1.gamma = (match gama_at data st with
        | some g => recip ((g : ℚ) / 100000)
        | none => st.gamma)) := by
  unfold png_chunk at h
  obtain ⟨chunklen, _, h⟩ := bind_ok _ _ _ h
  obtain ⟨e1, he1, h⟩ := bind_ok _ _ _ h
  cases e1 with
  | true =>
    simp only [if_true, pure, Except.pure, Except.ok.injEq] at h
    subst h
    refine ⟨fun st1 h1 => ?_, fun st1 h1 => by cases h1⟩
    cases h1
    exact ⟨rfl, gama_at_none data st 73 [69, 78, 68] he1 (by decide)⟩
  | false =>
    simp only [Bool.false_eq_true, if_false] at h
    obtain ⟨e2, he2, h⟩ := bind_ok _ _ _ h
    cases e2 with
    | true =>
      simp only [if_true, pure, Except.pure, Except.ok.injEq] at h
      subst h
      refine ⟨fun st1 h1 => ?_, fun st1 h1 => by cases h1⟩
      cases h1
      exact ⟨rfl, gama_at_none data st 73 [68, 65, 84] he2 (by decide)⟩
    | false =>
      simp only [Bool.false_eq_true, if_false] at h
      obtain ⟨e3, he3, h⟩ := bind_ok _ _ _ h
      cases e3 with
      | true =>
        simp only [if_true, pure, Except.pure, Except.ok.injEq] at h
        subst h
        refine ⟨fun st1 h1 => ?_, fun st1 h1 => by cases h1⟩
        cases h1
        exact ⟨rfl, gama_at_none data st 80 [76, 84, 69] he3 (by decide)⟩
      | false =>
        simp only [Bool.false_eq_true, if_false] at h
        obtain ⟨i, hi, h⟩ := bind_ok _ _ _ h
        cases i with
        | true =>
          simp only [if_true] at h
          obtain ⟨off, _, h⟩ := bind_ok _ _ _ h
          obtain ⟨input, _, h⟩ := bind_ok _ _ _ h
          obtain ⟨buf, _, h⟩ := bind_ok _ _ _ h
          have hn := gama_at_none data st 105 [67, 67, 80] hi (by decide)
          cases buf with
          | none =>
            simp only [pure, Except.pure, Except.ok.injEq] at h
            subst h
            refine ⟨fun st1 h1 => ?_, fun st1 h1 => by cases h1⟩
            cases h1
            exact ⟨rfl, hn⟩
          | some blob =>
            simp only [pure, Except.pure, Except.ok.injEq] at h
            subst h
            refine ⟨fun st1 h1 => ?_, fun st1 h1 => by cases h1⟩
            cases h1
            exact ⟨rfl, hn⟩
        | false =>
          simp only [Bool.false_eq_true, if_false] at h
          obtain ⟨s, hs, h⟩ := bind_ok _ _ _ h
          cases s with
          | true =>
            simp only [if_true, pure, Except.pure, Except.ok.injEq] at h
            subst h
            refine ⟨fun st1 h1 => ?_, fun st1 h1 => by cases h1⟩
            cases h1
            exact ⟨rfl, gama_at_none data st 115 [82, 71, 66] hs (by decide)⟩
          | false =>
            simp only [Bool.false_eq_true, if_false] at h
            obtain ⟨c, _, h⟩ := bind_ok _ _ _ h
            obtain ⟨sta, hsta, h⟩ := bind_ok _ _ _ h
            have hga : sta.gamma = st.gamma := by
              cases c with
              | false =>
                simp only [Bool.false_eq_true, if_false, pure, Except.pure,
                  Except.ok.injEq] at hsta
                rw [← hsta]
              | true =>
                simp only [if_true] at hsta
                obtain ⟨f0, _, hsta⟩ := bind_ok _ _ _ hsta
                obtain ⟨f1, _, hsta⟩ := bind_ok _ _ _ hsta
                obtain ⟨f2, _, hsta⟩ := bind_ok _ _ _ hsta
                obtain ⟨f3, _, hsta⟩ := bind_ok _ _ _ hsta
                obtain ⟨f4, _, hsta⟩ := bind_ok _ _ _ hsta
                obtain ⟨f5, _, hsta⟩ := bind_ok _ _ _ hsta
                obtain ⟨f6, _, hsta⟩ := bind_ok _ _ _ hsta
                obtain ⟨f7, _, hsta⟩ := bind_ok _ _ _ hsta
                simp only [pure, Except.pure, Except.ok.injEq] at hsta
                rw [← hsta]
            obtain ⟨g, hg, h⟩ := bind_ok _ _ _ h
            obtain ⟨stb, hstb, h⟩ := bind_ok _ _ _ h
            simp only [pure, Except.pure, Except.ok.injEq] at h
            subst h
            refine ⟨fun st1 h1 => (by cases h1), fun st1 h1 => ?_⟩
            cases h1
            show stb.gamma = _
            cases g with
            | false =>
              simp only [Bool.false_eq_true, if_false, pure, Except.pure,
                Except.ok.injEq] at hstb
              have hn : gama_at data st = none := by simp [gama_at, hg]
              rw [hn, ← hstb, hga]
            | true =>
              simp only [if_true] at hstb
              obtain ⟨f, hf, hstb⟩ := bind_ok _ _ _ hstb
              unfold FLOAT at hf
              obtain ⟨v, hv, hf⟩ := bind_ok _ _ _ hf
              simp only [pure, Except.pure, Except.ok.injEq] at hf hstb
              have hs : gama_at data st = some v := by unfold gama_at; rw [hg, hv]
              rw [hs, ← hstb, ← hf]

theorem getLast_cons_some {α : Type} (a : α) (l : List α) :
    (a :: l).getLast? = some (match l.getLast? with
      | none => a
      | some b => b) := by
  cases l with
  | nil => rfl
  | cons b t =>
    rw [List.getLast?_cons_cons]
    cases h : (b :: t).getLast? with
    | none => simp at h
    | some x => rfl

theorem png_walk_gamma {P TC Z : Type} (L : Libs P TC Z) (data : List Byte) :
    ∀ (fuel : Nat) (st0 st : PngState P), png_walk L data fuel st0 = Except.ok st →
      st.gamma = (match ((png_visited L data fuel st0).filterMap (gama_at data)).getLast? with
        | none => st0.gamma
        | some g => recip ((g : ℚ) / 100000)) := by
  intro fuel
  induction fuel with
  | zero =>
    intro st0 st h
    by_cases hlt : st0.pos < u32 data.length
    · simp [png_walk, hlt] at h
    · simp only [png_walk, hlt, if_false, pure, Except.pure, Except.ok.injEq] at h
      subst h
      simp [png_visited]
  | succ fuel ih =>
    intro st0 st h
    by_cases hlt : st0.pos < u32 data.length
    · simp only [png_walk, hlt, if_true] at h
      obtain ⟨it, hit, h⟩ := bind_ok _ _ _ h
      have hstep := png_chunk_gamma L data st0 it hit
      cases it with
      | brk st1 =>
        simp only [pure, Except.pure, Except.ok.injEq] at h
        subst h
        obtain ⟨hg, hn⟩ := hstep.1 _ rfl
        simp [png_visited, hlt, hit, List.filterMap_cons, hn, hg]
      | cont st1 =>
        simp only at h
        have hg := hstep.2 _ rfl
        have h2 := ih st1 st h
        have hv : png_visited L data (fuel + 1) st0 = st0 :: png_visited L data fuel st1 := by
          simp [png_visited, hlt, hit]
        rw [hv, List.filterMap_cons]
        cases hga : gama_at data st0 with
        | none =>
          simp only [hga] at hg ⊢
          rw [h2, hg]
        | some g0 =>
          simp only [hga] at hg ⊢
          rw [getLast_cons_some]
          cases hl : ((png_visited L data fuel st1).filterMap (gama_at data)).getLast? with
          | none =>
            rw [hl] at h2
            simp only at h2 ⊢
            rw [h2, hg]
          | some x =>
            rw [hl] at h2
            simp only at h2 ⊢
            exact h2
    · simp only [png_walk, hlt, if_false, pure, Except.pure, Except.ok.injEq] at h
      subst h
      simp [png_visited, hlt]
/-- C13, amended. For every byte sequence, every library behaviour and every
bound on the number of iterations: if every `gAMA` value the walk reads (the
word at `pos + 8` in an iteration whose chunk type is `gAMA`) is greater
than 0, then whenever the walk ends with `custom` set, the gamma handed to the
tone-curve builder is a positive finite real `q`, namely `1 / (g/100000) =
100000/g` for the last `gAMA` value `g` read, and the default 2.2 when no
`gAMA` value was read. On the files made of whole chunks (as in C7) the walk
does end, unless `png_inflate` overflows its `int` capacity. -/
theorem C13_gamma_positive {P TC Z : Type} (L : Libs P TC Z) (data : List Byte) (fuel : Nat)
    (hg : ∀ g ∈ gama_values L data fuel, 0 < g) :
    (∀ st, png_walk L data fuel (png_init P) = Except.ok st → st.custom = true →
      st.gamma = gamma_of (gama_values L data fuel) ∧
      ∃ q : ℚ, 0 < q ∧ st.gamma = Dbl.fin q ∧
        (gama_values L data fuel = [] → q = 22 / 10) ∧
        (∀ g, (gama_values L data fuel).getLast? = some g →
          q = 1 / ((g : ℚ) / 100000) ∧ q = 100000 / (g : ℚ)) ∧
        png_probe L fuel data =
          Except.ok (L.cmsCreateRGBProfile st.white st.prim
            (L.cmsBuildGamma (Dbl.fin q), L.cmsBuildGamma (Dbl.fin q),
             L.cmsBuildGamma (Dbl.fin q)))) ∧
    (∀ (cs : List Chunk) (tail : List Byte), data = png_sig ++ encode cs ++ tail →
      data.length < 2147483648 → (∀ c ∈ cs, c.wf = true) →
      (stops tail = true ∨ ∃ c ∈ cs, halting c.ctype = true) → cs.length < fuel →
      returns_or_overflows (png_walk L data fuel (png_init P))) := by
  constructor
  · intro st hst hcu
    have hwg := png_walk_gamma L data fuel (png_init P) st hst
    have hprobe : ∀ q : ℚ, st.gamma = Dbl.fin q →
        png_probe L fuel data =
          Except.ok (L.cmsCreateRGBProfile st.white st.prim
            (L.cmsBuildGamma (Dbl.fin q), L.cmsBuildGamma (Dbl.fin q),
             L.cmsBuildGamma (Dbl.fin q))) := by
      intro q hq
      rw [png_probe, hst]
      simp [bind, Except.bind, png_finish, hcu, hq, pure, Except.pure]
    change st.gamma = (match (gama_values L data fuel).getLast? with
      | none => (png_init P).gamma
      | some g => recip ((g : ℚ) / 100000)) at hwg
    cases hl : (gama_values L data fuel).getLast? with
    | none =>
      rw [hl] at hwg
      have h22 : st.gamma = Dbl.fin (22 / 10) := hwg
      refine ⟨(by rw [gamma_of, hl]; exact h22), 22 / 10, (by norm_num), h22, fun _ => rfl,
        fun g hgl => (by cases hgl), hprobe _ h22⟩
    | some g =>
      rw [hl] at hwg
      have hpos : 0 < g := hg g (List.mem_of_getLast?_eq_some hl)
      have hq0 : (0 : ℚ) < (g : ℚ) / 100000 := by
        have : (0 : ℚ) < (g : ℚ) := by exact_mod_cast hpos
        positivity
      have hr : recip ((g : ℚ) / 100000) = Dbl.fin (1 / ((g : ℚ) / 100000)) := by
        simp [recip, ne_of_gt hq0]
      have hgam : st.gamma = Dbl.fin (1 / ((g : ℚ) / 100000)) := by rw [← hr]; exact hwg
      refine ⟨(by rw [gamma_of, hl]; exact hwg), 1 / ((g : ℚ) / 100000), (by positivity), hgam,
        fun hnil => (by rw [hnil] at hl; cases hl), ?_, hprobe _ hgam⟩
      intro g2 hg2
      cases hg2
      exact ⟨rfl, by field_simp⟩
  · intro cs tail hd hlen hwf hs hf
    subst hd
    have hdrop : (png_sig ++ encode cs ++ tail).drop (png_init P).pos = encode cs ++ tail := by
      simp [png_init, png_sig]
    rw [png_walk_eq L _ hlen cs tail fuel (png_init P) hdrop hwf hs hf]
    exact chunks_walk_returns L cs _

/-- Witness of C13 (amended): in the PNG `cHRM`, `tEXt`, `gAMA` (45455), `IEND`
the only `gAMA` value read is 45455, the walk ends with `custom` set and the
tone-curve builder is handed `100000/45455`, a positive finite value. -/
theorem C13_gamma_positive_witness :
    (∀ g ∈ gama_values symLibs file_chrm_gama 4, 0 < g) ∧
    gama_values symLibs file_chrm_gama 4 = [45455] ∧
    ∃ q : ℚ, 0 < q ∧ q = 100000 / ((45455 : Nat) : ℚ) ∧
      png_probe symLibs 4 file_chrm_gama =
        Except.ok (some (Profile.rgb
          ⟨chunk_float ex_chrm 0, chunk_float ex_chrm 1, 1⟩
          ⟨⟨chunk_float ex_chrm 2, chunk_float ex_chrm 3, 1⟩,
           ⟨chunk_float ex_chrm 4, chunk_float ex_chrm 5, 1⟩,
           ⟨chunk_float ex_chrm 6, chunk_float ex_chrm 7, 1⟩⟩
          (some (Dbl.fin q), some (Dbl.fin q), some (Dbl.fin q)))) :=
  ⟨by decide, by decide,
    let ⟨_, q, h1, _, _, h4, h5⟩ :=
      (C13_gamma_positive symLibs file_chrm_gama 4 (by decide)).1
        { png_init Profile with
            pos := 81, custom := true,
            white := ⟨chunk_float ex_chrm 0, chunk_float ex_chrm 1, 1⟩,
            prim := ⟨⟨chunk_float ex_chrm 2, chunk_float ex_chrm 3, 1⟩,
                     ⟨chunk_float ex_chrm 4, chunk_float ex_chrm 5, 1⟩,
                     ⟨chunk_float ex_chrm 6, chunk_float ex_chrm 7, 1⟩⟩,
            gamma := recip (chunk_float ex_gama 0) }
        rfl rfl
    ⟨q, h1, (h4 45455 (by decide)).2, h5⟩⟩

/-! ## C14 - the growing buffer of `png_inflate` -/

theorem inflate_eq {P TC Z : Type} (L : Libs P TC Z) (s : loop_vars Z) :
    inflate L s.out s.strm =
      (loop_status L s, s.out.take s.strm.next_out ++ loop_written L s,
        ⟨s.strm.next_out + (loop_written L s).length,
          s.strm.avail_out - (loop_written L s).length,
          s.strm.total_out + (loop_written L s).length,
          (L.inflate s.strm.state s.strm.avail_out).2.2⟩) := rfl

theorem loop_written_le {P TC Z : Type} (L : Libs P TC Z) (s : loop_vars Z) :
    (loop_written L s).length ≤ s.strm.avail_out := by
  simp only [loop_written, List.length_take]
  exact Nat.min_le_left _ _

theorem loop_next_cases {P TC Z : Type} (L : Libs P TC Z) (s s1 : loop_vars Z)
    (h : loop_next L s = some s1) :
    loop_status L s = ZStatus.Z_BUF_ERROR ∧ s.len * 2 < 2147483648 ∧
    L.realloc (s.len * 2) = true ∧
    s1 = ⟨s.len * 2, s.out.take s.strm.next_out ++ loop_written L s,
      ⟨s.strm.total_out + (loop_written L s).length,
        u32 (s.len * 2 + 18446744073709551616 - (s.strm.total_out + (loop_written L s).length)),
        s.strm.total_out + (loop_written L s).length,
        (L.inflate s.strm.state s.strm.avail_out).2.2⟩⟩ := by
  simp only [loop_next, inflate_eq] at h
  cases hst : loop_status L s with
  | Z_STREAM_END => simp [hst] at h
  | Z_OTHER => simp [hst] at h
  | Z_BUF_ERROR =>
    simp only [hst] at h
    by_cases h1 : 2147483648 ≤ s.len * 2
    · simp [h1] at h
    · by_cases h2 : L.realloc (s.len * 2) = false
      · simp [h1, h2] at h
      · have h3 : L.realloc (s.len * 2) = true := by simpa using h2
        simp only [h1, h3, if_false, Option.some.injEq] at h
        simp at h
        exact ⟨rfl, by omega, h3, h.symm⟩

theorem loop_next_run {P TC Z : Type} (L : Libs P TC Z) (n : Nat) (s s1 : loop_vars Z)
    (h : loop_next L s = some s1) :
    png_inflate_loop L (n + 1) s.len s.out s.strm =
      png_inflate_loop L n s1.len s1.out s1.strm := by
  obtain ⟨h1, h2, h3, h4⟩ := loop_next_cases L s s1 h
  subst h4
  simp only [png_inflate_loop, inflate_eq, h1]
  simp [Nat.not_le.mpr h2, h3]

theorem loop_inv_next {P TC Z : Type} (L : Libs P TC Z) (k : Nat) (s s1 : loop_vars Z)
    (hi : loop_inv k s) (h : loop_next L s = some s1) :
    loop_inv (k + 1) s1 ∧ s1.out = s.out ++ loop_written L s := by
  obtain ⟨h1, h2, h3, h4⟩ := loop_next_cases L s s1 h
  obtain ⟨i1, i2, i3, i4⟩ := hi
  have hw := loop_written_le L s
  subst h4
  have ht : s.out.take s.strm.next_out = s.out := by
    rw [i1, ← i4]; exact List.take_length _
  refine ⟨⟨rfl, ?_, ?_, ?_⟩, by simp [ht]⟩
  · simp only [u32]
    omega
  · simp only [i3, Nat.pow_succ]; omega
  · simp only [ht, List.length_append, i4]

theorem loop_state_inv {P TC Z : Type} (L : Libs P TC Z) (z : Z) :
    ∀ (k : Nat) (s : loop_vars Z), loop_state L z k = some s →
      loop_inv k s ∧ s.len < 2147483648 := by
  intro k
  induction k with
  | zero =>
    intro s h
    simp only [loop_state, Option.some.injEq] at h
    subst h
    exact ⟨⟨rfl, rfl, rfl, rfl⟩, by simp [loop_init]⟩
  | succ k ih =>
    intro s h
    simp only [loop_state] at h
    cases hk : loop_state L z k with
    | none => simp [hk] at h
    | some s0 =>
      simp only [hk, Option.bind] at h
      have := (loop_next_cases L s0 s h).2.1
      have hl : s.len = s0.len * 2 := by rw [(loop_next_cases L s0 s h).2.2.2]
      exact ⟨(loop_inv_next L k s0 s (ih s0 hk).1 h).1, by omega⟩

theorem loop_state_le {P TC Z : Type} (L : Libs P TC Z) (z : Z) (k : Nat) (s : loop_vars Z)
    (h : loop_state L z k = some s) : k ≤ 16 := by
  obtain ⟨⟨_, _, h3, _⟩, h5⟩ := loop_state_inv L z k s h
  rw [h3] at h5
  by_contra hk
  have : 2 ^ 17 ≤ 2 ^ k := Nat.pow_le_pow_right (by decide) (by omega)
  omega

theorem loop_state_run {P TC Z : Type} (L : Libs P TC Z) (z : Z) :
    ∀ (k : Nat) (s : loop_vars Z), loop_state L z k = some s →
      png_inflate_loop L 18 (loop_init z).len (loop_init z).out (loop_init z).strm =
        png_inflate_loop L (18 - k) s.len s.out s.strm := by
  intro k
  induction k with
  | zero =>
    intro s h
    simp only [loop_state, Option.some.injEq] at h
    subst h; rfl
  | succ k ih =>
    intro s h
    have hk := loop_state_le L z (k + 1) s h
    simp only [loop_state] at h
    cases hs : loop_state L z k with
    | none => simp [hs] at h
    | some s0 =>
      simp only [hs, Option.bind] at h
      rw [ih s0 hs, show 18 - k = (18 - (k + 1)) + 1 by omega]
      exact loop_next_run L _ s0 s h

/-- C14. In `png_inflate`, with zlib's `inflate` as a step oracle and `z` the
decoder state after `inflateInit`: (1) the function runs the loop from the
initial variables; (2) the variables before the decoder call that follows `k`
buffer-exhaustion statuses are those the run of the loop passes through, with
at least two iterations left; (3) before every decoder call the write offset
equals the total output count, write offset plus available space equals the
capacity, the capacity is `16384 * 2^k`, the buffer holds exactly the bytes
written so far, and `k ≤ 16`; (4) the decoder writes at most the available
space, so never beyond the buffer, and a buffer-exhaustion status that
continues appends what it wrote; (5) on a stream-end status the function
returns all bytes written so far, as many as the total output count, however
many; (6) on any other status than stream-end and buffer-exhaustion it
returns no buffer. -/
theorem C14_inflate_buffer {P TC Z : Type} (L : Libs P TC Z) (z : Z) :
    (∀ input, L.inflateInit input = some z → L.malloc 16384 = true →
      png_inflate L input =
        png_inflate_loop L 18 (loop_init z).len (loop_init z).out (loop_init z).strm) ∧
    (∀ k s, loop_state L z k = some s → 2 ≤ 18 - k ∧
      png_inflate_loop L 18 (loop_init z).len (loop_init z).out (loop_init z).strm =
        png_inflate_loop L (18 - k) s.len s.out s.strm) ∧
    (∀ k s, loop_state L z k = some s →
      s.strm.next_out = s.strm.total_out ∧ s.strm.next_out + s.strm.avail_out = s.len ∧
      s.len = 16384 * 2 ^ k ∧ s.out.length = s.strm.total_out ∧ k ≤ 16) ∧
    (∀ k s, loop_state L z k = some s →
      s.strm.next_out + (loop_written L s).length ≤ s.len ∧
      (∀ s1, loop_next L s = some s1 →
        loop_status L s = ZStatus.Z_BUF_ERROR ∧ s1.out = s.out ++ loop_written L s)) ∧
    (∀ k s n, loop_state L z k = some s → loop_status L s = ZStatus.Z_STREAM_END →
      png_inflate_loop L (n + 1) s.len s.out s.strm =
        Except.ok (some (s.out ++ loop_written L s)) ∧
      (s.out ++ loop_written L s).length = (inflate L s.out s.strm).2.2.total_out) ∧
    (∀ (s : loop_vars Z) n, loop_status L s = ZStatus.Z_OTHER →
      png_inflate_loop L (n + 1) s.len s.out s.strm = Except.ok none) := by
  refine ⟨?_, ?_, ?_, ?_, ?_, ?_⟩
  · intro input h1 h2
    simp [png_inflate, h1, h2, loop_init]
  · intro k s h
    have := loop_state_le L z k s h
    exact ⟨by omega, loop_state_run L z k s h⟩
  · intro k s h
    obtain ⟨⟨h1, h2, h3, h4⟩, _⟩ := loop_state_inv L z k s h
    exact ⟨h1, h2, h3, h4, loop_state_le L z k s h⟩
  · intro k s h
    obtain ⟨⟨h1, h2, h3, h4⟩, _⟩ := loop_state_inv L z k s h
    have hw := loop_written_le L s
    refine ⟨by omega, fun s1 hn => ?_⟩
    exact ⟨(loop_next_cases L s s1 hn).1, (loop_inv_next L k s s1 ⟨h1, h2, h3, h4⟩ hn).2⟩
  · intro k s n h hst
    obtain ⟨⟨h1, h2, h3, h4⟩, _⟩ := loop_state_inv L z k s h
    have ht : s.out.take s.strm.next_out = s.out := by
      rw [h1, ← h4]; exact List.take_length _
    constructor
    · simp only [png_inflate_loop, inflate_eq, hst, ht, pure, Except.pure]
      rw [← h4, ← List.length_append, List.take_length]
    · simp [inflate_eq, h4]
  · intro s n hst
    simp only [png_inflate_loop, inflate_eq, hst, pure, Except.pure]

theorem loop_next_of {P TC Z : Type} (L : Libs P TC Z) (s : loop_vars Z)
    (h1 : loop_status L s = ZStatus.Z_BUF_ERROR) (h2 : s.len * 2 < 2147483648)
    (h3 : L.realloc (s.len * 2) = true) :
    loop_next L s = some ⟨s.len * 2, s.out.take s.strm.next_out ++ loop_written L s,
      ⟨s.strm.total_out + (loop_written L s).length,
        u32 (s.len * 2 + 18446744073709551616 - (s.strm.total_out + (loop_written L s).length)),
        s.strm.total_out + (loop_written L s).length,
        (L.inflate s.strm.state s.strm.avail_out).2.2⟩⟩ := by
  simp only [loop_next, inflate_eq, h1]
  simp [Nat.not_le.mpr h2, h3]

theorem sym_inflate_more (z : List Byte) (a : Nat) (h : a < z.length) :
    symLibs.inflate z a = (ZStatus.Z_BUF_ERROR, z.take a, z.drop a) := by
  simp only [symLibs]
  rw [if_neg (Nat.not_le.mpr h)]

theorem sym_inflate_end (z : List Byte) (a : Nat) (h : z.length ≤ a) :
    symLibs.inflate z a = (ZStatus.Z_STREAM_END, z, []) := by
  simp only [symLibs]
  rw [if_pos h]

theorem sym_first_call (z : List Byte) (h1 : 16384 < z.length) :
    loop_status symLibs (loop_init z) = ZStatus.Z_BUF_ERROR ∧
    loop_written symLibs (loop_init z) = z.take 16384 ∧
    (symLibs.inflate (loop_init z).strm.state (loop_init z).strm.avail_out).2.2 =
      z.drop 16384 := by
  have e : symLibs.inflate (loop_init z).strm.state (loop_init z).strm.avail_out =
      (ZStatus.Z_BUF_ERROR, z.take 16384, z.drop 16384) := sym_inflate_more z 16384 h1
  refine ⟨?_, ?_, ?_⟩
  · rw [loop_status, e]
  · rw [loop_written, e]
    show (z.take 16384).take 16384 = z.take 16384
    rw [List.take_take, Nat.min_self]
  · rw [e]

theorem sym_realloc (n : Nat) : symLibs.realloc n = true := rfl

theorem u32_avail : u32 (16384 * 2 + 18446744073709551616 - (0 + 16384)) = 16384 := by
  decide

theorem sym_state_one (z : List Byte) (h1 : 16384 < z.length) :
    loop_state symLibs z 1 =
      some ⟨32768, z.take 16384, ⟨16384, 16384, 16384, z.drop 16384⟩⟩ := by
  obtain ⟨f1, f2, f3⟩ := sym_first_call z h1
  have hn := loop_next_of symLibs (loop_init z) f1 (by simp only [loop_init]; omega) (sym_realloc _)
  have hst : loop_state symLibs z 1 = loop_next symLibs (loop_init z) := rfl
  have hl : (z.take 16384).length = 16384 := by rw [List.length_take]; omega
  rw [hst, hn, f2, f3, hl]
  simp only [loop_init, u32_avail, List.take_nil, List.nil_append, Nat.zero_add]

theorem sym_second_call (z : List Byte) (h2 : z.length ≤ 32768) :
    loop_status symLibs
      (⟨32768, z.take 16384, ⟨16384, 16384, 16384, z.drop 16384⟩⟩ : loop_vars (List Byte)) =
        ZStatus.Z_STREAM_END ∧
    z.take 16384 ++ loop_written symLibs
      (⟨32768, z.take 16384, ⟨16384, 16384, 16384, z.drop 16384⟩⟩ : loop_vars (List Byte)) =
        z := by
  have hl : (z.drop 16384).length ≤ 16384 := by
    rw [List.length_drop]; omega
  have e := sym_inflate_end (z.drop 16384) 16384 hl
  constructor
  · rw [loop_status]; simp only; rw [e]
  · rw [loop_written]; simp only; rw [e]
    simp only
    rw [List.take_of_length_le hl, List.take_append_drop]

/-- Witness of C14: with the identity decoder, a stream of 20000 bytes is
returned whole: more than the initial 16384 bytes of capacity. -/
theorem C14_inflate_buffer_witness :
    (List.replicate 20000 (1 : Byte)).length = 20000 ∧
    png_inflate symLibs (List.replicate 20000 (1 : Byte)) =
      Except.ok (some (List.replicate 20000 (1 : Byte))) := by
  have hlen : (List.replicate 20000 (1 : Byte)).length = 20000 := List.length_replicate _ _
  obtain ⟨c1, c2, _, _, c5, _⟩ := C14_inflate_buffer symLibs (List.replicate 20000 (1 : Byte))
  have hs := sym_state_one (List.replicate 20000 (1 : Byte)) (by rw [hlen]; decide)
  obtain ⟨e1, e2⟩ := sym_second_call (List.replicate 20000 (1 : Byte)) (by rw [hlen]; decide)
  refine ⟨hlen, ?_⟩
  rw [c1 _ rfl rfl, (c2 1 _ hs).2, (c5 1 _ 16 hs e1).1, e2]

end Sxiv
